import Mathlib

/-!
Verification development for the WaraqStation Arabic OCR text-extraction
pipeline.  The TypeScript sources are shallowly embedded: strings are
`List Char`, JavaScript regular-expression replacements over single-character
classes become `List.map` / `List.filterMap`, multi-character patterns become
explicit left-to-right scanners, IEEE doubles (used only for similarity
ratios, confidences and scale factors, all exactly representable or far from
comparison boundaries) become `ℚ`, and the external collaborators (sharp
image library, tesseract.js engine) become oracle functions supplied as
parameters, as the spec treats them as black boxes at their contract
boundary.  Elapsed-time instrumentation fields (`preprocessingTime`,
`ocrTime`) are wall-clock measurements with no functional role and are not
modelled.
-/

namespace Waraq

/-! Character classes.  Codepoint sets are taken verbatim from the character
classes of the regular expressions in the sources. -/

/-- JavaScript `\s` (and `String.prototype.trim`) whitespace set. -/
def isJsWs (c : Char) : Bool :=
  decide (c.toNat = 0x9 ∨ c.toNat = 0xA ∨ c.toNat = 0xB ∨ c.toNat = 0xC ∨ c.toNat = 0xD ∨
    c.toNat = 0x20 ∨ c.toNat = 0xA0 ∨ c.toNat = 0x1680 ∨
    (0x2000 ≤ c.toNat ∧ c.toNat ≤ 0x200A) ∨
    c.toNat = 0x2028 ∨ c.toNat = 0x2029 ∨ c.toNat = 0x202F ∨ c.toNat = 0x205F ∨
    c.toNat = 0x3000 ∨ c.toNat = 0xFEFF)

/-- Membership in the Arabic Unicode blocks tested by `containsArabic`
(U+0600–U+06FF, U+0750–U+077F, U+08A0–U+08FF). -/
def isArabicBlockChar (c : Char) : Bool :=
  decide ((0x600 ≤ c.toNat ∧ c.toNat ≤ 0x6FF) ∨
    (0x750 ≤ c.toNat ∧ c.toNat ≤ 0x77F) ∨
    (0x8A0 ≤ c.toNat ∧ c.toNat ≤ 0x8FF))

/-- Model of `containsArabic` (identical definitions in
`arabic-text-processor.ts` and `arabic-search-processor.ts`). -/
def containsArabic (s : List Char) : Bool :=
  s.any isArabicBlockChar

/-- The regex character range `[ا-ي]` (U+0627–U+064A) used throughout the
enhancer. -/
def inAY (c : Char) : Bool :=
  decide (0x627 ≤ c.toNat ∧ c.toNat ≤ 0x64A)

/-- Class `[آأإٱ]` of Alef variants. -/
def isAlefVariant (c : Char) : Bool :=
  decide (c.toNat = 0x622 ∨ c.toNat = 0x623 ∨ c.toNat = 0x625 ∨ c.toNat = 0x671)

/-- Class `[يى]` of Yeh variants. -/
def isYehVariant (c : Char) : Bool :=
  decide (c.toNat = 0x64A ∨ c.toNat = 0x649)

/-- Class `[ةه]` of Teh-Marbuta/Heh. -/
def isTehMarbutaHeh (c : Char) : Bool :=
  decide (c.toNat = 0x629 ∨ c.toNat = 0x647)

/-- Diacritics class `[ً-ٰٟۖ-ۭ]` (Tashkeel). -/
def isTashkeel (c : Char) : Bool :=
  decide ((0x64B ≤ c.toNat ∧ c.toNat ≤ 0x65F) ∨ c.toNat = 0x670 ∨
    (0x6D6 ≤ c.toNat ∧ c.toNat ≤ 0x6ED))

/-- Short diacritics class `[ً-ٟ]` used by the character-stage
spacing rule of the enhancer. -/
def isShortTashkeel (c : Char) : Bool :=
  decide (0x64B ≤ c.toNat ∧ c.toNat ≤ 0x65F)

/-- Class `[ؤئ]` of Hamza carriers. -/
def isHamzaCarrier (c : Char) : Bool :=
  decide (c.toNat = 0x624 ∨ c.toNat = 0x626)

/-- Tatweel `ـ`. -/
def isTatweel (c : Char) : Bool :=
  decide (c.toNat = 0x640)

/-- Class `[،؛؟]` of Arabic punctuation (U+060C, U+061B, U+061F). -/
def isArabicPunct (c : Char) : Bool :=
  decide (c.toNat = 0x60C ∨ c.toNat = 0x61B ∨ c.toNat = 0x61F)

/-! Generic string helpers shared by the models. -/

/-- Model of `String.prototype.replace` with a single-character class and a
single-character replacement (e.g. `.replace(/[آأإٱ]/g, 'ا')`). -/
def replaceClass (p : Char → Bool) (r : Char) (s : List Char) : List Char :=
  s.map (fun c => if p c then r else c)

/-- Model of `String.prototype.replace` with a single-character class and the
empty replacement (deletion, e.g. `.replace(/ـ/g, '')`). -/
def deleteClass (p : Char → Bool) (s : List Char) : List Char :=
  s.filter (fun c => !(p c))

/-- Model of `.replace(/\s+/g, ' ')`: each maximal whitespace run becomes a
single space.  The boolean accumulator records whether the scanner is inside
a run whose space has already been emitted. -/
def collapseWsAux : Bool → List Char → List Char
  | _, [] => []
  | inRun, c :: rest =>
    if isJsWs c then
      if inRun then collapseWsAux true rest
      else ' ' :: collapseWsAux true rest
    else c :: collapseWsAux false rest

/-- Model of `.replace(/\s+/g, ' ')`. -/
def collapseWs (s : List Char) : List Char :=
  collapseWsAux false s

/-- Model of `String.prototype.trim` (strip leading and trailing `\s`). -/
def trimWs (s : List Char) : List Char :=
  (((s.dropWhile isJsWs).reverse).dropWhile isJsWs).reverse

/-- Model of `String.prototype.toLowerCase` restricted to the ASCII range;
the Arabic script is caseless, so `toLowerCase` fixes every character this
pipeline produces outside A–Z. -/
def jsToLower (c : Char) : Char :=
  if 65 ≤ c.toNat ∧ c.toNat ≤ 90 then Char.ofNat (c.toNat + 32) else c

/-! Model of `arabic-search-processor.ts`. -/

/-- One entry of a normalization pattern table: a single-character class and
its single-character (or empty) replacement. -/
structure NormPattern where
  matchesClass : Char → Bool
  rep : Option Char

/-- Applying one pattern is one global `String.prototype.replace`. -/
def applyNormPattern (s : List Char) (p : NormPattern) : List Char :=
  s.filterMap (fun c => if p.matchesClass c then p.rep else some c)

/-- The table `ARABIC_SEARCH_NORMALIZATION_PATTERNS`, in source order. -/
def ARABIC_SEARCH_NORMALIZATION_PATTERNS : List NormPattern :=
  [⟨isAlefVariant, some 'ا'⟩,
   ⟨isYehVariant, some 'ي'⟩,
   ⟨isTehMarbutaHeh, some 'ة'⟩,
   ⟨isTashkeel, none⟩,
   ⟨isHamzaCarrier, some 'ء'⟩,
   ⟨isTatweel, none⟩,
   ⟨isArabicPunct, some ' '⟩]

/-- Model of `normalizeArabicForSearch`: the pattern loop, then
`.replace(/\s+/g, ' ').trim().toLowerCase()`. -/
def normalizeArabicForSearch (s : List Char) : List Char :=
  (trimWs (collapseWs (ARABIC_SEARCH_NORMALIZATION_PATTERNS.foldl applyNormPattern s))).map jsToLower

/-! Supporting definitions for the idempotence analysis of the search
normalizer. -/

/-- Per-character action of applying a pattern table in sequence. -/
def charFold : List NormPattern → Char → Option Char
  | [], c => some c
  | p :: ps, c =>
    if p.matchesClass c then
      match p.rep with
      | none => none
      | some r => charFold ps r
    else charFold ps c

/-- Whitespace canonicity: every whitespace character is a plain space. -/
def wsAllSpace (s : List Char) : Prop :=
  ∀ c ∈ s, isJsWs c = true → c = ' '

/-- Whitespace canonicity: no two adjacent whitespace characters. -/
def noTwoWs : List Char → Bool
  | [] => true
  | [_] => true
  | a :: b :: t => (!(isJsWs a && isJsWs b)) && noTwoWs (b :: t)

/-! Generic left-to-right scanner for the multi-character regular
expressions of the enhancer.  JavaScript global `replace` finds the
leftmost match, emits the replacement, and resumes immediately after the
consumed span; every pattern modelled here consumes at least one
character, so a fuel of the string length suffices. -/

/-- A matcher inspects a suffix and, on a match at position 0, returns the
replacement text and the number of characters consumed (always ≥ 1). -/
def Matcher : Type :=
  List Char → Option (List Char × Nat)

/-- Fuel-driven scan applying a matcher at every position. -/
def replaceScanF (m : Matcher) : Nat → List Char → List Char
  | 0, s => s
  | _ + 1, [] => []
  | fuel + 1, c :: rest =>
    match m (c :: rest) with
    | some (rep, k) => rep ++ replaceScanF m fuel (rest.drop (k - 1))
    | none => c :: replaceScanF m fuel rest

/-- Model of `String.prototype.replace` with a global multi-character
regular expression. -/
def regexReplace (m : Matcher) (s : List Char) : List Char :=
  replaceScanF m s.length s

/-- Fuel-driven scan counting non-overlapping matches. -/
def countScanF (m : Matcher) : Nat → List Char → Nat
  | 0, _ => 0
  | _ + 1, [] => 0
  | fuel + 1, c :: rest =>
    match m (c :: rest) with
    | some (_, k) => 1 + countScanF m fuel (rest.drop (k - 1))
    | none => countScanF m fuel rest

/-- Model of `(text.match(re) || []).length` for a global regex. -/
def regexCount (m : Matcher) (s : List Char) : Nat :=
  countScanF m s.length s

/-- Length of the leading whitespace run (what a greedy `\s*` consumes). -/
def wsRun (s : List Char) : Nat :=
  (s.takeWhile isJsWs).length

/-- Core for literal characters separated by `\s*` (e.g. `/م\s*ن/`):
returns the consumed count.  The literals are never whitespace, so the
greedy `\s*` needs no backtracking. -/
def seqWsStarCore : List Char → List Char → Option Nat
  | [], _ => some 0
  | l :: ls, s =>
    match s with
    | [] => none
    | c :: rest =>
      if c = l then
        if ls.isEmpty then some 1
        else
          let k := wsRun rest
          match seqWsStarCore ls (rest.drop k) with
          | some k2 => some (1 + k + k2)
          | none => none
      else none

/-- Matcher for `l₁\s*…\s*lₙ` with a fixed replacement. -/
def seqWsStarM (lits rep : List Char) : Matcher := fun s =>
  match seqWsStarCore lits s with
  | some k => some (rep, k)
  | none => none

/-- Matcher for `l₁\s*…\s*lₙ\s*([class])` replaced by the literals
followed by the capture (e.g. `/ب\s*([ا-ي])/g → 'ب$1'`). -/
def seqWsStarCapM (lits : List Char) (cls : Char → Bool) : Matcher := fun s =>
  match seqWsStarCore lits s with
  | none => none
  | some k =>
    let rest := s.drop k
    let w := wsRun rest
    match rest.drop w with
    | [] => none
    | y :: _ => if cls y then some (lits ++ [y], k + w + 1) else none

/-- Matcher for `([c₁])\s+([c₂])` joining the captures (mandatory
whitespace). -/
def clsWsPlusClsM (cls1 cls2 : Char → Bool) : Matcher := fun s =>
  match s with
  | [] => none
  | c :: rest =>
    if cls1 c then
      let w := wsRun rest
      if w = 0 then none
      else
        match rest.drop w with
        | [] => none
        | y :: _ => if cls2 y then some ([c, y], 1 + w + 1) else none
    else none

/-- Matcher for `l\s+([class])` → `l$1` (mandatory whitespace). -/
def litWsPlusCapM (l : Char) (cls : Char → Bool) : Matcher := fun s =>
  match s with
  | [] => none
  | c :: rest =>
    if c = l then
      let w := wsRun rest
      if w = 0 then none
      else
        match rest.drop w with
        | [] => none
        | y :: _ => if cls y then some ([l, y], 1 + w + 1) else none
    else none

/-- Matcher for `([class])\s*l` → `$1l`. -/
def capWsStarLitM (cls : Char → Bool) (l : Char) : Matcher := fun s =>
  match s with
  | [] => none
  | c :: rest =>
    if cls c then
      let w := wsRun rest
      match rest.drop w with
      | [] => none
      | d :: _ => if d = l then some ([c, l], 1 + w + 1) else none
    else none

/-- Matcher for `([class])\s+l` → `$1l` (mandatory whitespace). -/
def capWsPlusLitM (cls : Char → Bool) (l : Char) : Matcher := fun s =>
  match s with
  | [] => none
  | c :: rest =>
    if cls c then
      let w := wsRun rest
      if w = 0 then none
      else
        match rest.drop w with
        | [] => none
        | d :: _ => if d = l then some ([c, l], 1 + w + 1) else none
    else none

/-- Matcher for `([class])\s*P\s*([class])` → `$1P $2` (sentence
punctuation spacing). -/
def clsPunctClsM (cls : Char → Bool) (p : Char) : Matcher := fun s =>
  match s with
  | [] => none
  | c :: rest =>
    if cls c then
      let w1 := wsRun rest
      match rest.drop w1 with
      | [] => none
      | d :: rest2 =>
        if d = p then
          let w2 := wsRun rest2
          match rest2.drop w2 with
          | [] => none
          | y :: _ =>
            if cls y then some ([c, p, ' ', y], 1 + w1 + 1 + w2 + 1) else none
        else none
    else none

/-- Matcher for `\s*P\s*` with a fixed replacement (e.g.
`/\s*،\s*/g → '، '`).  The leading `\s*` can only succeed with the whole
leading whitespace run, because `P` is not whitespace. -/
def wsPunctWsM (p : Char) (rep : List Char) : Matcher := fun s =>
  let w1 := wsRun s
  match s.drop w1 with
  | [] => none
  | d :: rest2 =>
    if d = p then
      let w2 := wsRun rest2
      some (rep, w1 + 1 + w2)
    else none

/-- Matcher for `\s+([class])` → `$1`. -/
def wsPlusCapM (cls : Char → Bool) : Matcher := fun s =>
  let w := wsRun s
  if w = 0 then none
  else
    match s.drop w with
    | [] => none
    | d :: _ => if cls d then some ([d], w + 1) else none

/-- Matcher for `([class])\s+` → `$1 `. -/
def capWsPlusM (cls : Char → Bool) : Matcher := fun s =>
  match s with
  | [] => none
  | d :: rest =>
    if cls d then
      let w := wsRun rest
      if w = 0 then none else some ([d, ' '], 1 + w)
    else none

/-- Matcher for `\s{n,}` with a fixed replacement (greedy: consumes the
whole run). -/
def wsAtLeastM (n : Nat) (rep : List Char) : Matcher := fun s =>
  let w := wsRun s
  if n ≤ w then some (rep, w) else none

/-- Consumed length up to and including the last newline of a whitespace
run. -/
def lastNlConsumed (run : List Char) : Nat :=
  run.length - run.reverse.findIdx (fun c => c = '\n')

/-- Matcher for `\n\s*\n\s*\n` → two newlines.  With backtracking, the
greedy `\s*` groups make the match start at a newline and extend to the
last newline of the whitespace run, provided the run holds at least three
newlines. -/
def tripleNlM : Matcher := fun s =>
  match s with
  | [] => none
  | c :: _ =>
    if c = '\n' then
      let run := s.takeWhile isJsWs
      if 3 ≤ run.count '\n' then some (['\n', '\n'], lastNlConsumed run)
      else none
    else none

/-- Matcher for `\n\s*\n` → one newline (same backtracking analysis with
two newlines). -/
def doubleNlM : Matcher := fun s =>
  match s with
  | [] => none
  | c :: _ =>
    if c = '\n' then
      let run := s.takeWhile isJsWs
      if 2 ≤ run.count '\n' then some (['\n'], lastNlConsumed run)
      else none
    else none

/-- Matcher for `\n\s+` → one newline. -/
def nlWsPlusM : Matcher := fun s =>
  match s with
  | [] => none
  | c :: rest =>
    if c = '\n' then
      let w := wsRun rest
      if w = 0 then none else some (['\n'], 1 + w)
    else none

/-- Matcher for `([^\n])\n([^\n])` → `$1 $2`. -/
def joinBrokenLineM : Matcher := fun s =>
  match s with
  | c1 :: '\n' :: c2 :: _ =>
    if c1 ≠ '\n' ∧ c2 ≠ '\n' then some ([c1, ' ', c2], 3) else none
  | _ => none

/-- Matcher for a fixed character sequence (used by the ligature table,
whose entries replace a sequence by itself). -/
def litSeqM (pat rep : List Char) : Matcher := fun s =>
  if pat ≠ [] ∧ pat.isPrefixOf s then some (rep, pat.length) else none

/-- Model of `String.prototype.split(/\s+/)`: pieces between whitespace
runs; a leading or trailing run contributes an empty piece, as in
JavaScript. -/
def splitWsF : Nat → List Char → List (List Char)
  | 0, s => [s]
  | fuel + 1, s =>
    let word := s.takeWhile (fun c => !(isJsWs c))
    let rest := s.drop word.length
    match rest with
    | [] => [word]
    | _ :: _ => word :: splitWsF fuel (rest.drop (wsRun rest))

/-- Model of `text.split(/\s+/)`. -/
def jsSplitWs (s : List Char) : List (List Char) :=
  splitWsF s.length s

/-- Model of non-regex `String.prototype.replace` with a string pattern:
replaces the first occurrence only. -/
def replaceFirstF (pat rep : List Char) : Nat → List Char → List Char
  | 0, s => s
  | _ + 1, [] => []
  | fuel + 1, c :: rest =>
    if pat.isPrefixOf (c :: rest) then rep ++ (c :: rest).drop pat.length
    else c :: replaceFirstF pat rep fuel rest

/-- Model of `word.replace(cleanWord, closeMatch)`. -/
def replaceFirst (pat rep s : List Char) : List Char :=
  if pat.isEmpty then rep ++ s else replaceFirstF pat rep s.length s

/-- Matcher for `ا\s+ل\s+` → `ال` (mandatory whitespace on both sides; the
trailing run is consumed). -/
def alefLamWsPlusM : Matcher := fun s =>
  match s with
  | [] => none
  | c :: rest =>
    if c = 'ا' then
      let w1 := wsRun rest
      if w1 = 0 then none
      else
        match rest.drop w1 with
        | [] => none
        | d :: rest2 =>
          if d = 'ل' then
            let w2 := wsRun rest2
            if w2 = 0 then none else some (['ا', 'ل'], 1 + w1 + 1 + w2)
          else none
    else none

/-! Model of `arabic-text-enhancer.ts`. -/

/-- The array literal behind `COMMON_ARABIC_WORDS`, in source order.  The
JavaScript `Set` iterates insertion order with later duplicates dropped;
since `findClosestArabicWord` only replaces its best candidate on a
strictly greater similarity and membership ignores duplicates, iterating
the plain array is equivalent. -/
def COMMON_ARABIC_WORDS : List (List Char) :=
  ["في".data,
   "من".data,
   "إلى".data,
   "على".data,
   "هذا".data,
   "هذه".data,
   "التي".data,
   "الذي".data,
   "كان".data,
   "كانت".data,
   "يكون".data,
   "تكون".data,
   "له".data,
   "لها".data,
   "لم".data,
   "لن".data,
   "قد".data,
   "كل".data,
   "بعض".data,
   "عند".data,
   "عندما".data,
   "حيث".data,
   "حين".data,
   "بين".data,
   "خلال".data,
   "أثناء".data,
   "بعد".data,
   "قبل".data,
   "مع".data,
   "ضد".data,
   "نحو".data,
   "تجاه".data,
   "حول".data,
   "دون".data,
   "سوى".data,
   "غير".data,
   "إلا".data,
   "لكن".data,
   "لكن".data,
   "أو".data,
   "أم".data,
   "لا".data,
   "ما".data,
   "لماذا".data,
   "كيف".data,
   "أين".data,
   "متى".data,
   "ماذا".data,
   "من".data,
   "الله".data,
   "رب".data,
   "إسلام".data,
   "مسلم".data,
   "عربي".data,
   "عرب".data,
   "بلد".data,
   "دولة".data,
   "مدينة".data,
   "قرية".data,
   "بيت".data,
   "منزل".data,
   "مكتب".data,
   "مدرسة".data,
   "جامعة".data,
   "مستشفى".data,
   "مطار".data,
   "محطة".data,
   "سوق".data,
   "متجر".data,
   "مطعم".data,
   "فندق".data,
   "شارع".data,
   "طريق".data,
   "جسر".data,
   "نهر".data,
   "بحر".data,
   "جبل".data,
   "صحراء".data,
   "غابة".data,
   "حديقة".data,
   "ميدان".data,
   "ساحة".data,
   "مسجد".data,
   "كنيسة".data,
   "معبد".data,
   "مكتبة".data,
   "متحف".data,
   "مسرح".data,
   "سينما".data,
   "ملعب".data,
   "حمام".data,
   "مطبخ".data,
   "غرفة".data,
   "صالة".data,
   "شرفة".data,
   "حديقة".data,
   "موقف".data,
   "مرآب".data,
   "مصعد".data]

/-- Model of `fixArabicCharacterIssues`: presentation-form unification,
apostrophe/backtick to Hamza, the two ASCII-quote rules (whose character
classes in the source contain the plain ASCII double quote and apostrophe,
making them no-ops), and the letter–diacritic spacing rule. -/
def fixArabicCharacterIssues (s : List Char) : List Char :=
  let s := replaceClass (fun c => c.toNat = 0xFE8E) 'ا' s
  let s := replaceClass (fun c => c.toNat = 0xFE8F) 'ب' s
  let s := replaceClass (fun c => c.toNat = 0xFE91) 'ب' s
  let s := replaceClass (fun c => c.toNat = 0xFE92) 'ب' s
  let s := replaceClass (fun c => c.toNat = 0xFE90) 'ب' s
  let s := replaceClass (fun c => c.toNat = 0xFE95) 'ت' s
  let s := replaceClass (fun c => c.toNat = 0xFE97) 'ت' s
  let s := replaceClass (fun c => c.toNat = 0xFE98) 'ت' s
  let s := replaceClass (fun c => c.toNat = 0xFE96) 'ت' s
  let s := replaceClass (fun c => c.toNat = 0xFE99) 'ث' s
  let s := replaceClass (fun c => c.toNat = 0xFE9B) 'ث' s
  let s := replaceClass (fun c => c.toNat = 0xFE9C) 'ث' s
  let s := replaceClass (fun c => c.toNat = 0xFE9A) 'ث' s
  let s := replaceClass (fun c => c.toNat = 0xFE9D) 'ج' s
  let s := replaceClass (fun c => c.toNat = 0xFE9F) 'ج' s
  let s := replaceClass (fun c => c.toNat = 0xFEA0) 'ج' s
  let s := replaceClass (fun c => c.toNat = 0xFE9E) 'ج' s
  let s := replaceClass (fun c => c = '`' ∨ c = '\'') 'ء' s
  let s := replaceClass (fun c => c = '"') '"' s
  let s := replaceClass (fun c => c = '\'') '\'' s
  regexReplace (clsWsPlusClsM inAY isShortTashkeel) s

/-- Model of `fixArabicWordIssues`. -/
def fixArabicWordIssues (s : List Char) : List Char :=
  let s := regexReplace (seqWsStarCapM ['ا', 'ل'] inAY) s
  let s := regexReplace (seqWsStarCapM ['ب'] inAY) s
  let s := regexReplace (seqWsStarCapM ['ل'] inAY) s
  let s := regexReplace (seqWsStarCapM ['ك'] inAY) s
  let s := regexReplace (seqWsStarCapM ['و'] inAY) s
  let s := regexReplace (seqWsStarCapM ['ف'] inAY) s
  let s := regexReplace (seqWsStarM ['م', 'ن'] ['م', 'ن']) s
  let s := regexReplace (seqWsStarM ['ف', 'ي'] ['ف', 'ي']) s
  let s := regexReplace (seqWsStarM ['ع', 'ل', 'ى'] ['ع', 'ل', 'ى']) s
  let s := regexReplace (seqWsStarM ['إ', 'ل', 'ى'] ['إ', 'ل', 'ى']) s
  let s := regexReplace (seqWsStarM ['ه', 'ذ', 'ا'] ['ه', 'ذ', 'ا']) s
  let s := regexReplace (seqWsStarM ['ه', 'ذ', 'ه'] ['ه', 'ذ', 'ه']) s
  let s := regexReplace (seqWsStarM ['ذ', 'ل', 'ك'] ['ذ', 'ل', 'ك']) s
  let s := regexReplace (seqWsStarM ['ت', 'ل', 'ك'] ['ت', 'ل', 'ك']) s
  let s := regexReplace (seqWsStarM ['أ', 'ن', 'ا'] ['أ', 'ن', 'ا']) s
  let s := regexReplace (seqWsStarM ['أ', 'ن', 'ت'] ['أ', 'ن', 'ت']) s
  let s := regexReplace (seqWsStarM ['ه', 'و'] ['ه', 'و']) s
  let s := regexReplace (seqWsStarM ['ه', 'ي'] ['ه', 'ي']) s
  let s := regexReplace (seqWsStarM ['ن', 'ح', 'ن'] ['ن', 'ح', 'ن']) s
  let s := regexReplace (seqWsStarM ['أ', 'ن', 'ت', 'م'] ['أ', 'ن', 'ت', 'م']) s
  let s := regexReplace (seqWsStarM ['ه', 'م'] ['ه', 'م']) s
  regexReplace (seqWsStarM ['ه', 'ن'] ['ه', 'ن']) s

/-- Model of `fixArabicSentenceIssues`. -/
def fixArabicSentenceIssues (s : List Char) : List Char :=
  let s := regexReplace (clsPunctClsM inAY '.') s
  let s := regexReplace (clsPunctClsM inAY '،') s
  let s := regexReplace (clsPunctClsM inAY '؛') s
  let s := regexReplace (clsPunctClsM inAY '؟') s
  let s := regexReplace (clsPunctClsM inAY '!') s
  let s := regexReplace (seqWsStarCapM ['"'] inAY) s
  let s := regexReplace (capWsStarLitM inAY '"') s
  let s := regexReplace (seqWsStarCapM ['('] inAY) s
  let s := regexReplace (capWsStarLitM inAY ')') s
  let s := regexReplace tripleNlM s
  regexReplace nlWsPlusM s

/-- A similarity ratio as an exact fraction (numerator, positive
denominator).  The source computes an IEEE double; at the magnitudes involved
(small numerators over denominators bounded by the word lengths, and the
constants 1, 0, 0.95 and 0.7) double comparison agrees with exact rational
comparison, so fractions compared by cross-multiplication model it
faithfully while remaining kernel-computable. -/
def simGt (a b : Nat × Nat) : Prop :=
  a.1 * b.2 > b.1 * a.2

instance (a b : Nat × Nat) : Decidable (simGt a b) := by
  unfold simGt
  infer_instance

/-- Model of `calculateArabicSimilarity` (returning the ratio as an exact
fraction). -/
def calculateArabicSimilarity (w1 w2 : List Char) : Nat × Nat :=
  if w1 = w2 then (1, 1)
  else if w1.length = 0 ∨ w2.length = 0 then (0, 1)
  else
    let normalize := fun (w : List Char) =>
      deleteClass isTashkeel
        (replaceClass isTehMarbutaHeh 'ة'
          (replaceClass isYehVariant 'ي'
            (replaceClass isAlefVariant 'ا' w)))
    let norm1 := normalize w1
    let norm2 := normalize w2
    if norm1 = norm2 then (19, 20)
    else
      let maxLen := max norm1.length norm2.length
      let posMatches := ((norm1.zip norm2).filter (fun q => q.1 = q.2)).length
      (posMatches, maxLen)

/-- Model of `findClosestArabicWord`: iterate the dictionary keeping the
first word whose similarity strictly exceeds both the best so far and the
0.7 acceptance threshold. -/
def findClosestArabicWord (word : List Char) : Option (List Char) :=
  if word.length < 2 then none
  else
    (COMMON_ARABIC_WORDS.foldl
      (fun acc dictWord =>
        if 2 < ((dictWord.length : ℤ) - (word.length : ℤ)).natAbs then acc
        else
          let similarity := calculateArabicSimilarity word dictWord
          if simGt similarity acc.2 ∧ simGt similarity (7, 10) then (some dictWord, similarity)
          else acc)
      (none, (0, 1))).1

/-- Model of `applyContextBasedCorrections`. -/
def applyContextBasedCorrections (s : List Char) : List Char :=
  let words := jsSplitWs s
  let correctedWords := words.map (fun word =>
    let cleanWord := word.filter isArabicBlockChar
    if ¬(containsArabic cleanWord = true) ∨ cleanWord.length < 2 then word
    else if COMMON_ARABIC_WORDS.contains cleanWord then word
    else
      match findClosestArabicWord cleanWord with
      | some closeMatch => replaceFirst cleanWord closeMatch word
      | none => word)
  List.intercalate [' '] correctedWords

/-- Model of `enhanceArabicTextQuality`. -/
def enhanceArabicTextQuality (s : List Char) : List Char :=
  if ¬(containsArabic s = true) then s
  else
    trimWs (applyContextBasedCorrections
      (fixArabicSentenceIssues (fixArabicWordIssues (fixArabicCharacterIssues s))))

/-- Latin-letter class `[a-zA-Z]`. -/
def isLatinLetter (c : Char) : Bool :=
  decide ((65 ≤ c.toNat ∧ c.toNat ≤ 90) ∨ (97 ≤ c.toNat ∧ c.toNat ≤ 122))

/-- Matcher for the broken-word pattern `([ا-ي])\s+([ا-ي])\s+([ا-ي])`
(used only for counting). -/
def brokenWordM : Matcher := fun s =>
  match s with
  | [] => none
  | c :: rest =>
    if inAY c then
      let w1 := wsRun rest
      if w1 = 0 then none
      else
        match rest.drop w1 with
        | [] => none
        | d :: rest2 =>
          if inAY d then
            let w2 := wsRun rest2
            if w2 = 0 then none
            else
              match rest2.drop w2 with
              | [] => none
              | e :: _ =>
                if inAY e then some ([], 1 + w1 + 1 + w2 + 1) else none
          else none
    else none

/-- Matcher for `[ا-ي][.!?][ا-ي]` (used only for counting). -/
def punctBetweenM : Matcher := fun s =>
  match s with
  | c :: d :: e :: _ =>
    if inAY c ∧ (d = '.' ∨ d = '!' ∨ d = '?') ∧ inAY e then some ([], 3) else none
  | _ => none

/-- Matcher for `[a-zA-Z][ا-ي]|[ا-ي][a-zA-Z]` (used only for counting). -/
def mixedScriptM : Matcher := fun s =>
  match s with
  | c :: d :: _ =>
    if (isLatinLetter c ∧ inAY d) ∨ (inAY c ∧ isLatinLetter d) then some ([], 2)
    else none
  | _ => none

/-- The report returned by the quality scorer. -/
structure QualityReport where
  score : Int
  issues : List String
  suggestions : List String
deriving DecidableEq

/-- Model of `scoreArabicTextQuality`. -/
def scoreArabicTextQuality (t : List Char) : QualityReport :=
  if ¬(containsArabic t = true) then
    ⟨0, ["No Arabic text detected"], []⟩
  else
    let score : Int := 100
    let issues : List String := []
    let suggestions : List String := []
    let brokenWords := regexCount brokenWordM t
    let score := if brokenWords > 3 then score - (brokenWords : Int) * 5 else score
    let issues := if brokenWords > 3 then issues ++ ["Many broken words detected"] else issues
    let suggestions :=
      if brokenWords > 3 then suggestions ++ ["Try higher resolution or better image quality"]
      else suggestions
    let punctuationErrors := regexCount punctBetweenM t
    let score :=
      if punctuationErrors > 2 then score - (punctuationErrors : Int) * 3 else score
    let issues :=
      if punctuationErrors > 2 then issues ++ ["Punctuation spacing issues"] else issues
    let suggestions :=
      if punctuationErrors > 2 then suggestions ++ ["Check for proper sentence boundaries"]
      else suggestions
    let mixedIssues := regexCount mixedScriptM t
    let score := if mixedIssues > 2 then score - (mixedIssues : Int) * 2 else score
    let issues := if mixedIssues > 2 then issues ++ ["Mixed script boundary issues"] else issues
    let suggestions :=
      if mixedIssues > 2 then suggestions ++ ["May need better language detection"]
      else suggestions
    let score := if (trimWs t).length < 10 then score - 20 else score
    let issues := if (trimWs t).length < 10 then issues ++ ["Very short text extracted"] else issues
    let suggestions :=
      if (trimWs t).length < 10 then suggestions ++ ["Ensure image contains readable text"]
      else suggestions
    let arabicWords := (jsSplitWs t).filter (fun w => containsArabic w)
    let score := if arabicWords.length = 0 then score - 30 else score
    let issues := if arabicWords.length = 0 then issues ++ ["No Arabic words found"] else issues
    let suggestions :=
      if arabicWords.length = 0 then suggestions ++ ["Check if image contains Arabic text"]
      else suggestions
    ⟨max 0 (min 100 score), issues, suggestions⟩

/-- Model of `fixArabicPatterns` (reconstruction stage). -/
def fixArabicPatterns (s : List Char) : List Char :=
  let s := regexReplace (seqWsStarM ['م', 'ا', 'ذ', 'ا'] ['م', 'ا', 'ذ', 'ا']) s
  let s := regexReplace (seqWsStarM ['ل', 'م', 'ا', 'ذ', 'ا'] ['ل', 'م', 'ا', 'ذ', 'ا']) s
  let s := regexReplace (seqWsStarM ['ك', 'ي', 'ف'] ['ك', 'ي', 'ف']) s
  let s := regexReplace (seqWsStarM ['أ', 'ي', 'ن'] ['أ', 'ي', 'ن']) s
  let s := regexReplace (seqWsStarM ['م', 'ت', 'ى'] ['م', 'ت', 'ى']) s
  let s := regexReplace (seqWsStarM ['و', 'ل', 'ك', 'ن'] ['و', 'ل', 'ك', 'ن']) s
  let s := regexReplace (seqWsStarM ['ل', 'ك', 'ن'] ['ل', 'ك', 'ن']) s
  let s := regexReplace (seqWsStarM ['أ', 'و'] ['أ', 'و']) s
  let s := regexReplace (seqWsStarM ['إ', 'ذ', 'ا'] ['إ', 'ذ', 'ا']) s
  let s := regexReplace (seqWsStarM ['إ', 'ذ'] ['إ', 'ذ']) s
  let s := regexReplace (seqWsStarM ['ل', 'ا'] ['ل', 'ا']) s
  let s := regexReplace (seqWsStarM ['ل', 'م'] ['ل', 'م']) s
  let s := regexReplace (seqWsStarM ['ل', 'ن'] ['ل', 'ن']) s
  let s := regexReplace (seqWsStarM ['م', 'ا'] ['م', 'ا']) s
  let s := regexReplace (seqWsStarM ['ه', 'ؤ', 'ل', 'ا', 'ء'] ['ه', 'ؤ', 'ل', 'ا', 'ء']) s
  let s := regexReplace (seqWsStarM ['أ', 'و', 'ل', 'ئ', 'ك'] ['أ', 'و', 'ل', 'ئ', 'ك']) s
  let s := regexReplace (seqWsStarM ['ه', 'ا', 'ت', 'ا', 'ن'] ['ه', 'ا', 'ت', 'ا', 'ن']) s
  regexReplace (seqWsStarM ['ه', 'ذ', 'ا', 'ن'] ['ه', 'ذ', 'ا', 'ن']) s

/-- Class `[،؛؟!.]` of the final-cleanup punctuation rules. -/
def isCleanupPunct (c : Char) : Bool :=
  decide (c.toNat = 0x60C ∨ c.toNat = 0x61B ∨ c.toNat = 0x61F ∨ c = '!' ∨ c = '.')

/-- Model of `finalArabicCleanup`. -/
def finalArabicCleanup (s : List Char) : List Char :=
  let s := collapseWs s
  let s := regexReplace (wsPlusCapM isCleanupPunct) s
  let s := regexReplace (capWsPlusM isCleanupPunct) s
  let s := regexReplace (wsPunctWsM '"' ['"']) s
  let s := regexReplace (litWsPlusCapM '"' inAY) s
  let s := regexReplace (capWsPlusLitM inAY '"') s
  let s := regexReplace (wsPunctWsM '(' ['(']) s
  let s := regexReplace (wsPunctWsM ')' [')', ' ']) s
  let s := regexReplace (litWsPlusCapM '(' inAY) s
  let s := regexReplace (capWsPlusLitM inAY ')') s
  trimWs s

/-- Model of `reconstructArabicText`. -/
def reconstructArabicText (s : List Char) : List Char :=
  if ¬(containsArabic s = true) then s
  else finalArabicCleanup (fixArabicPatterns (enhanceArabicTextQuality s))

/-! Model of the Arabic text processor (`arabic-text-processor.ts`, the
version with defensive optional-dependency loading). -/

/-- The table `ARABIC_NORMALIZATION_PATTERNS`, in source order. -/
def ARABIC_NORMALIZATION_PATTERNS : List NormPattern :=
  [⟨isAlefVariant, some 'ا'⟩,
   ⟨isYehVariant, some 'ي'⟩,
   ⟨isTehMarbutaHeh, some 'ة'⟩,
   ⟨isTashkeel, none⟩,
   ⟨isHamzaCarrier, some 'ء'⟩,
   ⟨isTatweel, none⟩]

/-- Model of `normalizeArabicText`: the pattern loop, then
`.replace(/\s+/g, ' ').trim()`. -/
def normalizeArabicText (s : List Char) : List Char :=
  trimWs (collapseWs (ARABIC_NORMALIZATION_PATTERNS.foldl applyNormPattern s))

/-- Model of `reshapeArabicText`.  The reshaping and bidi libraries are
optional external dependencies loaded defensively at startup; per the
spec's optional-dependency note the stage is a no-op when they are
unavailable, which is how this deployment-independent model treats it. -/
def reshapeArabicText (s : List Char) : List Char :=
  s

/-- Model of `fixArabicWordBoundaries`. -/
def fixArabicWordBoundaries (s : List Char) : List Char :=
  let s := regexReplace (clsWsPlusClsM inAY inAY) s
  let s := regexReplace alefLamWsPlusM s
  let s := regexReplace (litWsPlusCapM 'و' inAY) s
  let s := regexReplace (litWsPlusCapM 'ب' inAY) s
  let s := regexReplace (litWsPlusCapM 'ل' inAY) s
  regexReplace (litWsPlusCapM 'ك' inAY) s

/-- Model of `fixArabicLigatures`: every table entry replaces a
two-character sequence by the same two characters (`from` equals `to` in
the source), so each rule only re-emits what it consumed. -/
def fixArabicLigatures (s : List Char) : List Char :=
  let s := regexReplace (litSeqM ['ل', 'ا'] ['ل', 'ا']) s
  let s := regexReplace (litSeqM ['ل', 'آ'] ['ل', 'آ']) s
  let s := regexReplace (litSeqM ['ل', 'أ'] ['ل', 'أ']) s
  regexReplace (litSeqM ['ل', 'إ'] ['ل', 'إ']) s

/-- Model of `fixCommonArabicOCRErrors` (processor version): the
`commonErrors` table applied in order, then the word-boundary and ligature
fixes, all only when the text contains Arabic; a final `trim` always
runs. -/
def fixCommonArabicOCRErrors (s : List Char) : List Char :=
  let fixed :=
    if containsArabic s then
      let t := s
      let t := replaceClass (fun c => c = 'o' ∨ c = '0' ∨ c = 'O') '٠' t
      let t := replaceClass (fun c => c = '1' ∨ c = 'l') '١' t
      let t := replaceClass (fun c => c = '2') '٢' t
      let t := replaceClass (fun c => c = '3') '٣' t
      let t := replaceClass (fun c => c = '4') '٤' t
      let t := replaceClass (fun c => c = '5') '٥' t
      let t := replaceClass (fun c => c = '6') '٦' t
      let t := replaceClass (fun c => c = '7') '٧' t
      let t := replaceClass (fun c => c = '8') '٨' t
      let t := replaceClass (fun c => c = '9') '٩' t
      let t := replaceClass (fun c => c.toNat = 0xFECA) 'ع' t
      let t := replaceClass (fun c => c.toNat = 0xFECB) 'ع' t
      let t := replaceClass (fun c => c.toNat = 0xFECC) 'ع' t
      let t := replaceClass (fun c => c.toNat = 0xFECB) 'ع' t
      let t := replaceClass (fun c => c.toNat = 0xFEA1) 'ح' t
      let t := replaceClass (fun c => c.toNat = 0xFEA3) 'ح' t
      let t := replaceClass (fun c => c.toNat = 0xFEA4) 'ح' t
      let t := replaceClass (fun c => c.toNat = 0xFEA3) 'ح' t
      let t := replaceClass (fun c => c.toNat = 0xFEAD) 'ر' t
      let t := replaceClass (fun c => c.toNat = 0xFEAE) 'ر' t
      let t := replaceClass (fun c => c.toNat = 0xFEB1) 'س' t
      let t := replaceClass (fun c => c.toNat = 0xFEB3) 'س' t
      let t := replaceClass (fun c => c.toNat = 0xFEB4) 'س' t
      let t := replaceClass (fun c => c.toNat = 0xFEB3) 'س' t
      let t := replaceClass (fun c => c.toNat = 0xFEE1) 'م' t
      let t := replaceClass (fun c => c.toNat = 0xFEE3) 'م' t
      let t := replaceClass (fun c => c.toNat = 0xFEE4) 'م' t
      let t := replaceClass (fun c => c.toNat = 0xFEE3) 'م' t
      let t := replaceClass (fun c => c.toNat = 0xFEE5) 'ن' t
      let t := replaceClass (fun c => c.toNat = 0xFEE7) 'ن' t
      let t := replaceClass (fun c => c.toNat = 0xFEE8) 'ن' t
      let t := replaceClass (fun c => c.toNat = 0xFEE7) 'ن' t
      let t := replaceClass (fun c => c.toNat = 0xFEDD) 'ل' t
      let t := replaceClass (fun c => c.toNat = 0xFEDF) 'ل' t
      let t := replaceClass (fun c => c.toNat = 0xFEE0) 'ل' t
      let t := replaceClass (fun c => c.toNat = 0xFEDF) 'ل' t
      let t := replaceClass (fun c => c.toNat = 0xFED9) 'ك' t
      let t := replaceClass (fun c => c.toNat = 0xFEDB) 'ك' t
      let t := replaceClass (fun c => c.toNat = 0xFEDC) 'ك' t
      let t := replaceClass (fun c => c.toNat = 0xFEDB) 'ك' t
      let t := replaceClass (fun c => c.toNat = 0xFEF1) 'ي' t
      let t := replaceClass (fun c => c.toNat = 0xFEF3) 'ي' t
      let t := replaceClass (fun c => c.toNat = 0xFEF4) 'ي' t
      let t := replaceClass (fun c => c.toNat = 0xFEF3) 'ي' t
      let t := replaceClass (fun c => c.toNat = 0xFE80) 'ء' t
      let t := replaceClass (fun c => c.toNat = 0xFE81 ∨ c.toNat = 0x622) 'آ' t
      let t := replaceClass (fun c => c.toNat = 0xFE83 ∨ c.toNat = 0x623) 'أ' t
      let t := replaceClass (fun c => c.toNat = 0xFE87 ∨ c.toNat = 0x625) 'إ' t
      let t := replaceClass (fun c => c.toNat = 0xFE8D ∨ c.toNat = 0x627) 'ا' t
      let t := regexReplace (wsPunctWsM '،' ['،', ' ']) t
      let t := regexReplace (wsPunctWsM '؛' ['؛', ' ']) t
      let t := regexReplace (wsPunctWsM '؟' ['؟', ' ']) t
      let t := regexReplace (wsPunctWsM '!' ['!', ' ']) t
      let t := regexReplace (wsAtLeastM 3 [' ', ' ']) t
      let t := regexReplace (wsAtLeastM 2 [' ']) t
      let t := regexReplace doubleNlM t
      let t := regexReplace joinBrokenLineM t
      let t := fixArabicWordBoundaries t
      fixArabicLigatures t
    else s
  trimWs fixed

/-- Model of `postprocessArabicOCR` (processor version): normalize, fix
common OCR errors, enhance, reconstruct, reshape; the quality report of
step 6 is computed for logging only. -/
def postprocessArabicOCR (s : List Char) : List Char :=
  let processed := normalizeArabicText s
  let processed := fixCommonArabicOCRErrors processed
  let processed := enhanceArabicTextQuality processed
  let processed := reconstructArabicText processed
  let processed := reshapeArabicText processed
  let _report := scoreArabicTextQuality processed
  processed

/-! Models of the image preprocessing utilities.  The raster library (sharp)
is an external collaborator: reading metadata, reading channel statistics and
rendering a composed pipeline of transforms are oracle functions that may
each fail, per the spec's collaborator contract. -/

/-- Opaque handle for an image byte buffer owned by the external raster
library. -/
abbrev Buffer := Nat

/-- Image metadata as read by `sharp().metadata()`: `width` and `height`
model `metadata.width || 0` (0 stands for an undefined or zero value, both
falsy in JavaScript); `density` models the optional `metadata.density`. -/
structure ImgMeta where
  width : Nat
  height : Nat
  density : Option ℚ

/-- One operation of a sharp pipeline, recorded so that ordering and
dimension claims can be stated.  Per-operation tuning parameters that no
claim depends on (sharpen radii, resize kernels, output quality) are
elided. -/
inductive ImgOp
  | resize (w h : Nat)
  | grayscale
  | normalize
  | gamma (g : ℚ)
  | brightness (b : ℚ)
  | linear (a b : ℚ)
  | sharpen
  | blur (b : ℚ)
  | median (n : Nat)
  | threshold (t : ℚ)
  | convolve
  | extract (left top w h : Nat)
  | png
deriving DecidableEq

/-- Oracles for the external raster library. -/
structure ImgEnv where
  meta : Buffer → Except Unit ImgMeta
  stats : Buffer → Except Unit (ℚ × ℚ)
  render : Buffer → List ImgOp → Except Unit Buffer

/-- JavaScript `Math.round` for the nonnegative quantities rounded here
(halves round up). -/
def jsRound (q : ℚ) : Nat :=
  (⌊q + 1 / 2⌋).toNat

/-- Model of `validateGamma` (extractor version): clamp to [0.1, 3.0]. -/
def validateGamma (gamma : ℚ) : ℚ :=
  if gamma < 1 / 10 then 1 / 10
  else if gamma > 3 then 3
  else gamma

/-- The transform list of the extractor `preprocessImage` switch for one
variant (after the small-image scale-up, before grayscale/png). -/
def preprocessImageV2VariantOps (variant : String) (w h : Nat) : List ImgOp :=
  if variant = "high_contrast" then
    [.gamma (validateGamma (6 / 5)), .normalize, .brightness (11 / 10), .linear (3 / 2) 0]
  else if variant = "denoised" then
    [.blur (1 / 2), .sharpen, .normalize]
  else if variant = "enhanced_upscaled" then
    if w ≠ 0 ∧ h ≠ 0 then
      [.resize (w * 2) (h * 2), .gamma (validateGamma (11 / 10)), .brightness (21 / 20),
       .linear (13 / 10) 0, .sharpen]
    else []
  else [.normalize]

/-- The integer scale factor of the extractor `preprocessImage`:
`Math.max(1, Math.ceil(min / dim))` computed with ceiling division. -/
def v2CeilScale (minDim dim : Nat) : Nat :=
  max 1 ((minDim + dim - 1) / dim)

/-- The full pipeline the extractor `preprocessImage` composes for one
variant: the small-image scale-up first (minimums 100×50), then the variant
transforms, then grayscale and png encoding. -/
def preprocessImageV2Ops (variant : String) (w h : Nat) : List ImgOp :=
  (if w < 100 ∨ h < 50 then
    let scale := max (v2CeilScale 100 w) (v2CeilScale 50 h)
    [ImgOp.resize (w * scale) (h * scale)]
  else []) ++ preprocessImageV2VariantOps variant w h ++ [.grayscale, .png]

/-- The try-block of the extractor `preprocessImage`: metadata read, missing
dimensions rejected, pipeline rendered. -/
def preprocessImageV2Inner (ienv : ImgEnv) (buffer : Buffer) (variant : String) :
    Except Unit Buffer :=
  match ienv.meta buffer with
  | .error e => .error e
  | .ok md =>
    if md.width = 0 ∨ md.height = 0 then .error ()
    else ienv.render buffer (preprocessImageV2Ops variant md.width md.height)

/-- Model of the extractor `preprocessImage`: any failure inside the try
block falls back to the original buffer. -/
def preprocessImageV2 (ienv : ImgEnv) (buffer : Buffer) (variant : String) : Buffer :=
  match preprocessImageV2Inner ienv buffer variant with
  | .ok b => b
  | .error _ => buffer

/-- Options of `preprocessImageForOCR` (image-preprocessor version) with the
destructuring defaults already resolved by the caller
(enhanceContrast/reduceNoise/sharpen/grayscale default true, targetDpi 300,
binarizationThreshold auto). -/
structure ImagePreprocessingOptions where
  enhanceContrast : Bool
  reduceNoise : Bool
  targetDpi : ℚ
  sharpen : Bool
  grayscale : Bool
  binarizationThreshold : Option ℚ

/-- The scale factor computed by `preprocessImageForOCR` lines 56–68: DPI
ratio, raised for below-minimum images by the SMALLER of the two
minimum-dimension ratios (minimums 400×200). -/
def preprocessImageForOCRScale (w h : Nat) (density : Option ℚ) (targetDpi : ℚ) : ℚ :=
  let currentDpi := density.getD 72
  let scaleFactor := targetDpi / currentDpi
  if w < 400 ∨ h < 200 then
    let scaleX := (400 : ℚ) / w
    let scaleY := (200 : ℚ) / h
    max scaleFactor (min scaleX scaleY)
  else scaleFactor

/-- The resize operations of `preprocessImageForOCR`: a single resize when
the scale factor leaves the 0.9–1.1 dead zone, none otherwise. -/
def preprocessResizeOps (w h : Nat) (scaleFactor : ℚ) : List ImgOp :=
  if scaleFactor > 11 / 10 ∨ scaleFactor < 9 / 10 then
    [ImgOp.resize (jsRound (w * scaleFactor)) (jsRound (h * scaleFactor))]
  else []

/-- The transform list `preprocessImageForOCR` composes after its resize
decision (grayscale, contrast, noise reduction, sharpening, convolution),
before binarization. -/
def preprocessImageForOCRMainOps (o : ImagePreprocessingOptions) : List ImgOp :=
  (if o.grayscale then [ImgOp.grayscale] else [])
    ++ (if o.enhanceContrast then
          [ImgOp.normalize, .gamma (6 / 5), .linear (6 / 5) (-(128 * (1 / 5)))]
        else [])
    ++ (if o.reduceNoise then [ImgOp.median 3] else [])
    ++ (if o.sharpen then [ImgOp.sharpen] else [])
    ++ [ImgOp.convolve]

/-- The try-block of `preprocessImageForOCR`.  The automatic threshold reads
image statistics (a failable collaborator call), then clamps
`avgBrightness * 1.1` to [100, 180]. -/
def preprocessImageForOCRInner (ienv : ImgEnv) (buffer : Buffer)
    (o : ImagePreprocessingOptions) : Except Unit Buffer :=
  match ienv.meta buffer with
  | .error e => .error e
  | .ok md =>
    if md.width < 20 ∨ md.height < 20 then .ok buffer
    else
      let scaleFactor := preprocessImageForOCRScale md.width md.height md.density o.targetDpi
      let ops := preprocessResizeOps md.width md.height scaleFactor
        ++ preprocessImageForOCRMainOps o
      match o.binarizationThreshold with
      | some t => ienv.render buffer (ops ++ [.threshold t, .median 1, .png])
      | none =>
        match ienv.stats buffer with
        | .error e => .error e
        | .ok (avgBrightness, _) =>
          let autoThreshold := max 100 (min 180 (avgBrightness * (11 / 10)))
          ienv.render buffer (ops ++ [.threshold autoThreshold, .median 1, .png])

/-- Model of `cropDocumentBorders` (padding 20). -/
def cropDocumentBordersM (ienv : ImgEnv) (buffer : Buffer) : Except Unit Buffer :=
  match ienv.meta buffer with
  | .error e => .error e
  | .ok md =>
    if md.width = 0 ∨ md.height = 0 then .ok buffer
    else
      let cropWidth : ℚ := max ((md.width : ℚ) - 40) ((md.width : ℚ) * (9 / 10))
      let cropHeight : ℚ := max ((md.height : ℚ) - 40) ((md.height : ℚ) * (9 / 10))
      let left := (⌊((md.width : ℚ) - cropWidth) / 2⌋).toNat
      let top := (⌊((md.height : ℚ) - cropHeight) / 2⌋).toNat
      ienv.render buffer [ImgOp.extract left top (⌊cropWidth⌋).toNat (⌊cropHeight⌋).toNat]

/-- The try-block of `preprocessArabicDocument`: dimension check, optional
border crop for large images, then the conservative `preprocessImageForOCR`
call (whose option defaults/overrides the caller has already merged into
`o`). -/
def preprocessArabicDocumentInner (ienv : ImgEnv) (buffer : Buffer)
    (o : ImagePreprocessingOptions) : Except Unit Buffer :=
  match ienv.meta buffer with
  | .error e => .error e
  | .ok md =>
    if md.width < 50 ∨ md.height < 50 then .ok buffer
    else
      match (if md.width > 200 ∧ md.height > 200 then cropDocumentBordersM ienv buffer
             else .ok buffer) with
      | .error e => .error e
      | .ok b1 => preprocessImageForOCRInner ienv b1 o

/-- Model of `preprocessArabicDocument`: any failure inside the try block
falls back to the original buffer. -/
def preprocessArabicDocument (ienv : ImgEnv) (buffer : Buffer)
    (o : ImagePreprocessingOptions) : Buffer :=
  match preprocessArabicDocumentInner ienv buffer o with
  | .ok b => b
  | .error _ => buffer

/-! Models of the OCR orchestration (`advanced-arabic-ocr.ts`,
`arabic-ocr-fallback.ts`, and the extractor `img.extractor.ts`).  The
tesseract.js engine is an external collaborator: worker creation, parameter
setting and recognition are oracle functions.  A live-worker counter is
threaded through every function that acquires or releases a worker, so that
resource-leak claims can be stated.  Engine modes and page-segmentation
modes are carried as their tesseract.js string values (`PSM.AUTO = "3"`,
`PSM.SINGLE_COLUMN = "4"`, `PSM.SINGLE_BLOCK = "6"`,
`PSM.SPARSE_TEXT = "11"`). -/

/-- The `{ text, confidence }` payload of `worker.recognize`; the `|| 0` and
`|| ''` coalescing of undefined engine fields is folded into the oracle. -/
structure OCRData where
  text : List Char
  confidence : ℚ
deriving DecidableEq

/-- Oracles for the external recognition engine. -/
structure OCREnv where
  createW : List String → Option String → Except Unit Unit
  setParams : List String → Option String → Except Unit Unit
  recognize : Buffer → List String → Option String → Except Unit OCRData

/-- Result record of `performAdvancedArabicOCR` (elapsed-time fields not
modelled). -/
structure ArabicOCRResult where
  text : List Char
  confidence : ℚ
  strategy : String
deriving DecidableEq

/-- Options of `performAdvancedArabicOCR` with the destructuring defaults
(languages required, maxAttempts 3, minConfidenceThreshold 75,
enableAdvancedPreprocessing true) already resolved by the caller. -/
structure ArabicOCROptions where
  languages : List String
  maxAttempts : Nat
  minConfidenceThreshold : ℚ
  enableAdvancedPreprocessing : Bool

/-- One preprocessing strategy of `PREPROCESSING_STRATEGIES`. -/
structure PrepStrategyOptions where
  targetDpi : ℚ
  enhanceContrast : Bool
  sharpen : Bool
  binarizationThreshold : Option ℚ
  grayscale : Bool
  reduceNoise : Bool

/-- The table `PREPROCESSING_STRATEGIES`, in source order. -/
def PREPROCESSING_STRATEGIES : List (String × PrepStrategyOptions) :=
  [("high_contrast_binarized", ⟨400, true, true, some 128, true, false⟩),
   ("adaptive_threshold", ⟨350, true, true, none, true, true⟩),
   ("noise_reduced_enhanced", ⟨300, true, false, some 140, true, true⟩),
   ("minimal_processing", ⟨250, false, false, none, true, false⟩)]

/-- Model of `advancedArabicPreprocessing`: unknown strategy names throw;
small images pass through; otherwise scale (minimums 600×300, at least 2x
when below minimum, capped at 5x, 0.9–1.1 dead zone), grayscale, optional
noise reduction, contrast and sharpening, convolution, and binarization with
a fixed or statistics-derived threshold. -/
def advancedArabicPreprocessingM (ienv : ImgEnv) (buffer : Buffer)
    (strategyName : String) : Except Unit Buffer :=
  match PREPROCESSING_STRATEGIES.lookup strategyName with
  | none => .error ()
  | some o =>
    match ienv.meta buffer with
    | .error e => .error e
    | .ok md =>
      if md.width < 20 ∨ md.height < 20 then .ok buffer
      else
        let currentDpi := md.density.getD 72
        let scaleFactor := o.targetDpi / currentDpi
        let scaleFactor :=
          if md.width < 600 ∨ md.height < 300 then
            let scaleX := (600 : ℚ) / md.width
            let scaleY := (300 : ℚ) / md.height
            max scaleFactor (max (min scaleX scaleY) 2)
          else scaleFactor
        let scaleFactor := min scaleFactor 5
        let ops := preprocessResizeOps md.width md.height scaleFactor
          ++ (if o.grayscale then [ImgOp.grayscale] else [])
          ++ (if o.reduceNoise then [ImgOp.blur (4 / 5), ImgOp.sharpen] else [])
          ++ (if o.enhanceContrast then
                [ImgOp.normalize, .gamma (11 / 10), .linear (13 / 10) (-30)]
              else [])
          ++ (if o.sharpen then [ImgOp.sharpen] else [])
          ++ [ImgOp.convolve]
        match o.binarizationThreshold with
        | some t => ienv.render buffer (ops ++ [.threshold t, .linear (11 / 10) 0, .png])
        | none =>
          match ienv.stats buffer with
          | .error e => .error e
          | .ok (mean, std) =>
            let threshold := max 80 (min 200 (mean - std * (3 / 10)))
            ienv.render buffer
              (ops ++ [.threshold ((jsRound threshold : ℕ) : ℚ), .linear (11 / 10) 0, .png])

/-- Model of `performSingleOCRAttempt`: acquire a worker (a creation failure
is wrapped and rethrown without any worker having been acquired); inside the
try block set parameters and recognize; the finally block terminates the
worker on every path; Arabic post-processing is applied to nonempty Arabic
text (its own try/catch is vacuous here because the model of the
post-processor is total). -/
def performSingleOCRAttemptM (env : OCREnv) (buffer : Buffer) (languages : List String)
    (strategyName : String) (psmMode : Option String) (oemMode : Option String)
    (live : Nat) : Except Unit OCRData × Nat :=
  let _ := strategyName
  match env.createW languages oemMode with
  | .error _ => (.error (), live)
  | .ok _ =>
    let liveAcq := live + 1
    match env.setParams languages psmMode with
    | .error _ => (.error (), liveAcq - 1)
    | .ok _ =>
      match env.recognize buffer languages psmMode with
      | .error _ => (.error (), liveAcq - 1)
      | .ok d =>
        let processedText :=
          if languages.contains "ara" ∧ d.text ≠ [] ∧ containsArabic d.text then
            postprocessArabicOCR d.text
          else d.text
        (.ok ⟨processedText, d.confidence⟩, liveAcq - 1)

/-- The empty best result the orchestrator starts from. -/
def initialBest : ArabicOCRResult :=
  ⟨[], 0, "none"⟩

/-- The best-result update of the orchestrators: replace only on strictly
greater confidence. -/
def updateBest (cur : ArabicOCRResult) (d : OCRData) (strategyName : String) :
    ArabicOCRResult :=
  if d.confidence > cur.confidence then ⟨d.text, d.confidence, strategyName⟩ else cur

/-- Decidable equality for `Except`, needed to evaluate concrete runs. -/
instance instDecEqExcept {ε α : Type} [DecidableEq ε] [DecidableEq α] :
    DecidableEq (Except ε α) := fun x y =>
  match x, y with
  | .ok a, .ok b =>
    if h : a = b then .isTrue (by rw [h]) else .isFalse (by intro hc; cases hc; exact h rfl)
  | .error a, .error b =>
    if h : a = b then .isTrue (by rw [h]) else .isFalse (by intro hc; cases hc; exact h rfl)
  | .ok _, .error _ => .isFalse (by intro hc; cases hc)
  | .error _, .ok _ => .isFalse (by intro hc; cases hc)

/-- One executed attempt of `performAdvancedArabicOCR`, with its stage
(1 preprocessed variants, 2 original image, 3 segmentation modes), outcome,
and the best confidence after it (the run's console log). -/
structure AttemptRec where
  stage : Nat
  strategy : String
  outcome : Except Unit OCRData
  bestAfter : ℚ
deriving DecidableEq

/-- Best result, executed-attempt trace, and live-worker count of a stage. -/
structure StageOut where
  best : ArabicOCRResult
  trace : List AttemptRec
  live : Nat
deriving DecidableEq

/-- Stage 1 of `performAdvancedArabicOCR`: preprocessed variants, failures
logged and skipped, early break the moment an attempt reaches the
threshold. -/
def runAdvancedPrepStage (ienv : ImgEnv) (env : OCREnv) (buffer : Buffer)
    (languages : List String) (thr : ℚ) :
    List (String × PrepStrategyOptions) → ArabicOCRResult → Nat → StageOut
  | [], best, live => ⟨best, [], live⟩
  | (name, _) :: rest, best, live =>
    match advancedArabicPreprocessingM ienv buffer name with
    | .error _ =>
      let r := runAdvancedPrepStage ienv env buffer languages thr rest best live
      ⟨r.best, ⟨1, name, .error (), best.confidence⟩ :: r.trace, r.live⟩
    | .ok pbuf =>
      match performSingleOCRAttemptM env pbuf languages name none (some "LSTM_ONLY") live with
      | (.error _, live2) =>
        let r := runAdvancedPrepStage ienv env buffer languages thr rest best live2
        ⟨r.best, ⟨1, name, .error (), best.confidence⟩ :: r.trace, r.live⟩
      | (.ok d, live2) =>
        let best2 := updateBest best d name
        if d.confidence ≥ thr then ⟨best2, [⟨1, name, .ok d, best2.confidence⟩], live2⟩
        else
          let r := runAdvancedPrepStage ienv env buffer languages thr rest best2 live2
          ⟨r.best, ⟨1, name, .ok d, best2.confidence⟩ :: r.trace, r.live⟩

/-- The PSM modes tried by stage 3, in source order (AUTO, SINGLE_BLOCK,
SINGLE_COLUMN, SPARSE_TEXT). -/
def PSM_MODES : List String :=
  ["3", "6", "4", "11"]

/-- Stage 3 of `performAdvancedArabicOCR`: segmentation modes on the
original image, with the same early break. -/
def runPsmStage (env : OCREnv) (buffer : Buffer) (languages : List String) (thr : ℚ) :
    List String → ArabicOCRResult → Nat → StageOut
  | [], best, live => ⟨best, [], live⟩
  | psm :: rest, best, live =>
    let name := "psm_" ++ psm
    match performSingleOCRAttemptM env buffer languages name (some psm) (some "LSTM_ONLY") live with
    | (.error _, live2) =>
      let r := runPsmStage env buffer languages thr rest best live2
      ⟨r.best, ⟨3, name, .error (), best.confidence⟩ :: r.trace, r.live⟩
    | (.ok d, live2) =>
      let best2 := updateBest best d name
      if d.confidence ≥ thr then ⟨best2, [⟨3, name, .ok d, best2.confidence⟩], live2⟩
      else
        let r := runPsmStage env buffer languages thr rest best2 live2
        ⟨r.best, ⟨3, name, .ok d, best2.confidence⟩ :: r.trace, r.live⟩

/-- Stage 1 of `performAdvancedArabicOCR` as run by the orchestrator: the
preprocessed-variant loop, entered only when advanced preprocessing is
enabled and Arabic is requested, bounded by maxAttempts. -/
def advStage1 (ienv : ImgEnv) (env : OCREnv) (imageBuffer : Buffer)
    (options : ArabicOCROptions) (live : Nat) : StageOut :=
  if options.enableAdvancedPreprocessing ∧ options.languages.contains "ara" then
    runAdvancedPrepStage ienv env imageBuffer options.languages
      options.minConfidenceThreshold
      (PREPROCESSING_STRATEGIES.take (min options.maxAttempts PREPROCESSING_STRATEGIES.length))
      initialBest live
  else ⟨initialBest, [], live⟩

/-- Stage 2 of `performAdvancedArabicOCR`: one attempt on the original image,
run only when the best confidence is still below the threshold. -/
def advStage2 (env : OCREnv) (imageBuffer : Buffer) (languages : List String)
    (thr : ℚ) (r1 : StageOut) : StageOut :=
  if r1.best.confidence < thr then
    match performSingleOCRAttemptM env imageBuffer languages "original" none
        (some "LSTM_ONLY") r1.live with
    | (.ok d, live2) =>
      let best2 := updateBest r1.best d "original"
      (⟨best2, [⟨2, "original", .ok d, best2.confidence⟩], live2⟩ : StageOut)
    | (.error _, live2) =>
      (⟨r1.best, [⟨2, "original", .error (), r1.best.confidence⟩], live2⟩ : StageOut)
  else ⟨r1.best, [], r1.live⟩

/-- Stage 3 of `performAdvancedArabicOCR`: the segmentation-mode loop, run
only for Arabic when the best confidence is still below the threshold. -/
def advStage3 (env : OCREnv) (imageBuffer : Buffer) (languages : List String)
    (thr : ℚ) (isArabicOCR : Bool) (r2 : StageOut) : StageOut :=
  if r2.best.confidence < thr ∧ isArabicOCR then
    runPsmStage env imageBuffer languages thr PSM_MODES r2.best r2.live
  else ⟨r2.best, [], r2.live⟩

/-- Model of `performAdvancedArabicOCR`: preprocessed variants (when enabled
and Arabic is requested, bounded by maxAttempts), then the original image if
still below threshold, then PSM modes if still below threshold; returns the
best result together with the executed-attempt trace and the live-worker
count. -/
def performAdvancedArabicOCRM (ienv : ImgEnv) (env : OCREnv) (imageBuffer : Buffer)
    (options : ArabicOCROptions) (live : Nat) : StageOut :=
  let thr := options.minConfidenceThreshold
  let isArabicOCR := options.languages.contains "ara"
  let r1 := advStage1 ienv env imageBuffer options live
  let r2 := advStage2 env imageBuffer options.languages thr r1
  let r3 := advStage3 env imageBuffer options.languages thr isArabicOCR r2
  ⟨r3.best, r1.trace ++ r2.trace ++ r3.trace, r3.live⟩

/-! Model of `arabic-ocr-fallback.ts`. -/

/-- Result record of the fallback strategies. -/
structure OCRFallbackResult where
  text : List Char
  confidence : ℚ
  method : String
  success : Bool
deriving DecidableEq

/-- One iteration of the `tryMultiLanguageOCR` loop.  The whole body sits in
one try/catch with no finally: a worker created successfully is terminated
only on the success path; if setting parameters or recognition throws, the
catch records a failure without terminating the worker. -/
def tryOneLanguageCombo (env : OCREnv) (buffer : Buffer) (languages : List String)
    (live : Nat) : OCRFallbackResult × Nat :=
  let method := "languages_" ++ String.intercalate "_" languages
  let oem := if languages.head? = some "ara" then some "LSTM_ONLY" else none
  match env.createW languages oem with
  | .error _ => (⟨[], 0, method, false⟩, live)
  | .ok _ =>
    let liveAcq := live + 1
    match (if languages.head? = some "ara" then env.setParams languages (some "3")
           else .ok ()) with
    | .error _ => (⟨[], 0, method, false⟩, liveAcq)
    | .ok _ =>
      match env.recognize buffer languages none with
      | .error _ => (⟨[], 0, method, false⟩, liveAcq)
      | .ok d =>
        let liveRel := liveAcq - 1
        let processedText :=
          if languages.contains "ara" ∧ containsArabic d.text then
            postprocessArabicOCR d.text
          else d.text
        (⟨processedText, d.confidence, method, true⟩, liveRel)

/-- Model of `tryMultiLanguageOCR`: the three fixed language combinations in
order (the `primaryLanguages` argument is unused in the source as well). -/
def tryMultiLanguageOCRM (env : OCREnv) (buffer : Buffer)
    (primaryLanguages : List String) (live : Nat) : List OCRFallbackResult × Nat :=
  let _ := primaryLanguages
  let c1 := tryOneLanguageCombo env buffer ["ara"] live
  let c2 := tryOneLanguageCombo env buffer ["ara", "eng"] c1.2
  let c3 := tryOneLanguageCombo env buffer ["eng", "ara"] c2.2
  ([c1.1, c2.1, c3.1], c3.2)

/-- One iteration of the `tryDifferentOEModes` loop (same try/catch shape as
the language loop: a worker leaks when a call after its creation throws). -/
def tryOneOEMode (env : OCREnv) (buffer : Buffer) (languages : List String)
    (mode name : String) (live : Nat) : OCRFallbackResult × Nat :=
  let method := "oem_" ++ name
  match env.createW languages (some mode) with
  | .error _ => (⟨[], 0, method, false⟩, live)
  | .ok _ =>
    let liveAcq := live + 1
    match env.setParams languages (some "3") with
    | .error _ => (⟨[], 0, method, false⟩, liveAcq)
    | .ok _ =>
      match env.recognize buffer languages none with
      | .error _ => (⟨[], 0, method, false⟩, liveAcq)
      | .ok d =>
        let liveRel := liveAcq - 1
        let processedText :=
          if languages.contains "ara" ∧ containsArabic d.text then
            postprocessArabicOCR d.text
          else d.text
        (⟨processedText, d.confidence, method, true⟩, liveRel)

/-- Model of `tryDifferentOEModes`: LSTM-only, combined, and default engine
modes in order. -/
def tryDifferentOEModesM (env : OCREnv) (buffer : Buffer) (languages : List String)
    (live : Nat) : List OCRFallbackResult × Nat :=
  let m1 := tryOneOEMode env buffer languages "LSTM_ONLY" "lstm_only" live
  let m2 := tryOneOEMode env buffer languages "TESSERACT_LSTM_COMBINED" "combined" m1.2
  let m3 := tryOneOEMode env buffer languages "DEFAULT" "default" m2.2
  ([m1.1, m2.1, m3.1], m3.2)

/-- Stable insertion preserving the original order of equal confidences. -/
def insertByConfDesc (x : OCRFallbackResult) :
    List OCRFallbackResult → List OCRFallbackResult
  | [] => [x]
  | y :: ys => if x.confidence ≥ y.confidence then x :: y :: ys else y :: insertByConfDesc x ys

/-- Model of `results.sort((a, b) => b.confidence - a.confidence)`:
ECMAScript `Array.prototype.sort` is stable, so the unique result is the
descending stable order that insertion sort produces. -/
def sortByConfDesc (l : List OCRFallbackResult) : List OCRFallbackResult :=
  l.foldr insertByConfDesc []

/-- Model of `performComprehensiveArabicOCR`: run every language combination
and every engine mode, filter the successful results with positive
confidence, and return the head of the stable descending sort (or the
`all_failed` record). -/
def performComprehensiveArabicOCRM (env : OCREnv) (buffer : Buffer)
    (languages : List String) (live : Nat) : OCRFallbackResult × Nat :=
  let lr := tryMultiLanguageOCRM env buffer languages live
  let om := tryDifferentOEModesM env buffer languages lr.2
  let allResults := lr.1 ++ om.1
  let successfulResults := allResults.filter (fun r => r.success ∧ r.confidence > 0)
  match (sortByConfDesc successfulResults).head? with
  | none => (⟨[], 0, "all_failed", false⟩, om.2)
  | some bestResult => (bestResult, om.2)

/-! Model of the extractor `img.extractor.ts` (the version with
`createOCRWorker`, `performAdvancedOCR` and `performFallbackOCR`). -/

/-- The filtered language list `createOCRWorker` actually requests:
restricted to the offline-available codes, with English pushed when the
filter leaves nothing. -/
def availLangsOf (languages : List String) : List String :=
  let availableLanguages := languages.filter (fun lang => lang = "ara" ∨ lang = "eng")
  if availableLanguages.isEmpty then ["eng"] else availableLanguages

/-- Model of `createOCRWorker`: one creation attempt with the filtered
languages, one fallback retry with English only; the worker is identified by
the language list it was created with, and the second component records the
`createWorker` calls issued. -/
def createOCRWorkerM (env : OCREnv) (languages : List String) :
    Except Unit (List String) × List (List String) :=
  let avail := availLangsOf languages
  match env.createW avail (some "LSTM_ONLY") with
  | .ok _ => (.ok avail, [avail])
  | .error _ =>
    match env.createW ["eng"] (some "LSTM_ONLY") with
    | .ok _ => (.ok ["eng"], [avail, ["eng"]])
    | .error e => (.error e, [avail, ["eng"]])

/-- Model of `calculateArabicQuality` (diagnostic logging only). -/
def calculateArabicQuality (text : List Char) : ℚ :=
  if text.isEmpty ∨ (trimWs text).isEmpty then 0
  else
    let arabicChars := (text.filter (fun c => decide (0x600 ≤ c.toNat ∧ c.toNat ≤ 0x6FF))).length
    let totalChars := (text.filter (fun c => !(isJsWs c))).length
    if totalChars = 0 then 0
    else
      let arabicRatio : ℚ := (arabicChars : ℚ) / (totalChars : ℚ)
      if arabicRatio > 1 / 2 then 100 else arabicRatio * 100

/-- Best text/confidence pair of the extractor loops. -/
structure OCRResultV2 where
  text : List Char
  confidence : ℚ
deriving DecidableEq

/-- One executed attempt of the extractor run: kind 1 is a
preprocessed-variant attempt, kind 2 a fallback language-combination
attempt. -/
structure V2AttemptRec where
  kind : Nat
  name : String
  outcome : Except Unit OCRData
deriving DecidableEq

/-- The variant loop of `performAdvancedOCR`: preprocess (total, falls back
to the original buffer), acquire a worker via `createOCRWorker`, recognize,
update the best on strictly greater confidence, and break once a confidence
strictly exceeds 85; per-variant failures are caught and skipped. -/
def runV2VariantLoop (ienv : ImgEnv) (env : OCREnv) (buffer : Buffer)
    (languages : List String) (isArabic : Bool) :
    List String → OCRResultV2 → OCRResultV2 × List V2AttemptRec
  | [], best => (best, [])
  | v :: rest, best =>
    let processedBuffer := preprocessImageV2 ienv buffer v
    match (createOCRWorkerM env languages).1 with
    | .error _ =>
      let r := runV2VariantLoop ienv env buffer languages isArabic rest best
      (r.1, ⟨1, v, .error ()⟩ :: r.2)
    | .ok w =>
      match env.recognize processedBuffer w none with
      | .error _ =>
        let r := runV2VariantLoop ienv env buffer languages isArabic rest best
        (r.1, ⟨1, v, .error ()⟩ :: r.2)
      | .ok d =>
        let _quality := if isArabic then calculateArabicQuality d.text else 0
        let best2 := if d.confidence > best.confidence then ⟨d.text, d.confidence⟩ else best
        if d.confidence > 85 then (best2, [⟨1, v, .ok d⟩])
        else
          let r := runV2VariantLoop ienv env buffer languages isArabic rest best2
          (r.1, ⟨1, v, .ok d⟩ :: r.2)

/-- Model of `performAdvancedOCR`: the four variants in source order. -/
def performAdvancedOCRV2 (ienv : ImgEnv) (env : OCREnv) (buffer : Buffer)
    (languages : List String) (isArabic : Bool) : OCRResultV2 × List V2AttemptRec :=
  runV2VariantLoop ienv env buffer languages isArabic
    ["original", "denoised", "enhanced_upscaled", "high_contrast"] ⟨[], 0⟩

/-- The language-combination loop of `performFallbackOCR` (break once a
confidence strictly exceeds 60). -/
def runV2FallbackLoop (env : OCREnv) (buffer : Buffer) (isArabic : Bool) :
    List (List String) → OCRResultV2 → OCRResultV2 × List V2AttemptRec
  | [], best => (best, [])
  | langs :: rest, best =>
    let name := "languages_" ++ String.intercalate "_" langs
    match (createOCRWorkerM env langs).1 with
    | .error _ =>
      let r := runV2FallbackLoop env buffer isArabic rest best
      (r.1, ⟨2, name, .error ()⟩ :: r.2)
    | .ok w =>
      match env.recognize buffer w none with
      | .error _ =>
        let r := runV2FallbackLoop env buffer isArabic rest best
        (r.1, ⟨2, name, .error ()⟩ :: r.2)
      | .ok d =>
        let _quality := if isArabic then calculateArabicQuality d.text else 0
        let best2 := if d.confidence > best.confidence then ⟨d.text, d.confidence⟩ else best
        if d.confidence > 60 then (best2, [⟨2, name, .ok d⟩])
        else
          let r := runV2FallbackLoop env buffer isArabic rest best2
          (r.1, ⟨2, name, .ok d⟩ :: r.2)

/-- Model of `performFallbackOCR`: Arabic only, Arabic plus English, then
English only. -/
def performFallbackOCRV2 (env : OCREnv) (buffer : Buffer) (isArabic : Bool) :
    OCRResultV2 × List V2AttemptRec :=
  runV2FallbackLoop env buffer isArabic [["ara"], ["ara", "eng"], ["eng"]] ⟨[], 0⟩

/-- The try-block of the extractor `extractTextFromImage`: the advanced
multi-variant pass, the comprehensive fallback only when the advanced
confidence stays below 70, and the plain single-worker path for non-Arabic
language sets (whose worker-creation or recognition failures propagate to
the outer catch). -/
def extractV2Body (ienv : ImgEnv) (env : OCREnv) (buffer : Buffer)
    (languages : List String) : Except Unit (List Char) × List V2AttemptRec :=
  let isArabic := languages.any (fun lang => lang = "ara" ∨ lang = "ar")
  if isArabic then
    let adv := performAdvancedOCRV2 ienv env buffer languages isArabic
    if adv.1.confidence ≥ 70 then (.ok adv.1.text, adv.2)
    else
      let fb := performFallbackOCRV2 env buffer isArabic
      if fb.1.confidence > adv.1.confidence then (.ok fb.1.text, adv.2 ++ fb.2)
      else (.ok adv.1.text, adv.2 ++ fb.2)
  else
    match (createOCRWorkerM env languages).1 with
    | .error e => (.error e, [])
    | .ok w =>
      match env.recognize buffer w none with
      | .error e => (.error e, [])
      | .ok d => (.ok d.text, [])

/-- The final-fallback try-block of the extractor: simple English OCR. -/
def extractV2FinalFallback (env : OCREnv) (buffer : Buffer) : Except Unit (List Char) :=
  match (createOCRWorkerM env ["eng"]).1 with
  | .error e => .error e
  | .ok w =>
    match env.recognize buffer w none with
    | .error e => .error e
    | .ok d => .ok d.text

/-- Model of the extractor `extractTextFromImage`: the try-block, whose
failure falls into the catch running the final English fallback, whose own
failure is caught and becomes the empty string. -/
def extractTextFromImageV2 (ienv : ImgEnv) (env : OCREnv) (buffer : Buffer)
    (languages : List String) : Except Unit (List Char) × List V2AttemptRec :=
  match extractV2Body ienv env buffer languages with
  | (.ok t, tr) => (.ok t, tr)
  | (.error _, tr) =>
    match extractV2FinalFallback env buffer with
    | .ok t => (.ok t, tr)
    | .error _ => (.ok [], tr)

/-! Derived notions and concrete oracle instantiations used by the claim
statements. -/

/-- The earliest result of maximal confidence: a later element displaces the
current choice only on strictly greater confidence, so ties keep the earlier
(higher-priority) attempt. -/
def firstMaxByConf : List OCRFallbackResult → Option OCRFallbackResult
  | [] => none
  | x :: t =>
    match firstMaxByConf t with
    | none => some x
    | some b => if b.confidence > x.confidence then some b else some x

/-- Last element of a ℚ list, with a default for the empty list. -/
def lastD (q : ℚ) (l : List ℚ) : ℚ :=
  l.getLast?.getD q

/-- An attempt whose recognition succeeded with confidence at least the
threshold: the event on which the orchestrator breaks out of a stage. -/
def hitAttempt (thr : ℚ) (a : AttemptRec) : Prop :=
  ∃ d, a.outcome = Except.ok d ∧ thr ≤ d.confidence

/-- The list is non-decreasing, starting from `q`. -/
def nondecFrom (q : ℚ) : List ℚ → Bool
  | [] => true
  | x :: t => decide (q ≤ x) && nondecFrom x t

/-- Whether a pipeline operation is a resize. -/
def isResizeOp : ImgOp → Bool
  | .resize _ _ => true
  | _ => false

/-- A raster oracle reporting a 10×10 image (too small for any transform
computation) and rendering successfully. -/
def smallMetaImgEnv : ImgEnv :=
  ⟨fun _ => .ok ⟨10, 10, none⟩, fun _ => .ok (128, 10), fun b _ => .ok b⟩

/-- A raster oracle whose every collaborator call fails. -/
def allFailImgEnv : ImgEnv :=
  ⟨fun _ => .error (), fun _ => .error (), fun _ _ => .error ()⟩

/-- An engine oracle whose every recognition attempt succeeds with empty
text and confidence 90. -/
def const90OCREnv : OCREnv :=
  ⟨fun _ _ => .ok (), fun _ _ => .ok (), fun _ _ _ => .ok ⟨[], 90⟩⟩

/-- Orchestrator options: Arabic requested, three attempts, stage threshold
85, advanced preprocessing enabled. -/
def opts85 : ArabicOCROptions :=
  ⟨["ara"], 3, 85, true⟩

/-- An engine oracle where workers are created and configured successfully
but every recognition call throws. -/
def recognizeThrowsOCREnv : OCREnv :=
  ⟨fun _ _ => .ok (), fun _ _ => .ok (), fun _ _ _ => .error ()⟩

/-- An engine oracle where every collaborator call fails, worker creation
included. -/
def allFailOCREnv : OCREnv :=
  ⟨fun _ _ => .error (), fun _ _ => .error (), fun _ _ _ => .error ()⟩

/-- The conservative preprocessing options `preprocessArabicDocument` passes
down when the caller overrides nothing. -/
def conservativeOpts : ImagePreprocessingOptions :=
  ⟨true, false, 200, false, true, none⟩

/-! Lemmas about the search normalizer. -/

theorem toNat_ofNat_valid (n : Nat) (h : n.isValidChar) : (Char.ofNat n).toNat = n := by
  simp [Char.ofNat, h, Char.ofNatAux, Char.toNat]
  rfl

theorem jsToLower_toNat (c : Char) :
    (jsToLower c).toNat = if 65 ≤ c.toNat ∧ c.toNat ≤ 90 then c.toNat + 32 else c.toNat := by
  unfold jsToLower
  split_ifs with h
  · exact toNat_ofNat_valid _ (Or.inl (by omega))
  · rfl

theorem foldl_applyNormPattern_eq_filterMap (pats : List NormPattern) (s : List Char) :
    pats.foldl applyNormPattern s = s.filterMap (charFold pats) := by
  induction pats generalizing s with
  | nil =>
    rw [List.foldl_nil, show charFold [] = some from funext fun _ => rfl,
      List.filterMap_some]
  | cons p ps ih =>
    rw [List.foldl_cons, ih, applyNormPattern, List.filterMap_filterMap]
    congr 1
    funext c
    by_cases h : p.matchesClass c
    · simp only [charFold, h, if_true]
      cases p.rep <;> rfl
    · simp only [charFold, h, if_false]
      rfl

theorem charFold_out (pats : List NormPattern) (c x : Char)
    (h : charFold pats c = some x) : x = c ∨ ∃ p ∈ pats, p.rep = some x := by
  induction pats generalizing c with
  | nil =>
    left
    exact (Option.some.inj h).symm
  | cons p ps ih =>
    by_cases hm : p.matchesClass c
    · rw [charFold, if_pos hm] at h
      cases hr : p.rep with
      | none => rw [hr] at h; cases h
      | some r =>
        rw [hr] at h
        rcases ih r h with h1 | ⟨q, hq, hrep⟩
        · exact Or.inr ⟨p, List.mem_cons_self p ps, by rw [hr, h1]⟩
        · exact Or.inr ⟨q, List.mem_cons_of_mem _ hq, hrep⟩
    · rw [charFold, if_neg hm] at h
      rcases ih c h with h1 | ⟨q, hq, hrep⟩
      · exact Or.inl h1
      · exact Or.inr ⟨q, List.mem_cons_of_mem _ hq, hrep⟩

theorem searchPattern_rep_cases (p : NormPattern)
    (hp : p ∈ ARABIC_SEARCH_NORMALIZATION_PATTERNS) (x : Char) (h : p.rep = some x) :
    x = 'ا' ∨ x = 'ي' ∨ x = 'ة' ∨ x = 'ء' ∨ x = ' ' := by
  simp only [ARABIC_SEARCH_NORMALIZATION_PATTERNS, List.mem_cons, List.not_mem_nil,
    or_false] at hp
  rcases hp with h1 | h1 | h1 | h1 | h1 | h1 | h1 <;> subst h1 <;>
    simp_all <;> tauto

theorem searchNorm_char_fixed {c x : Char}
    (h : charFold ARABIC_SEARCH_NORMALIZATION_PATTERNS c = some x) :
    charFold ARABIC_SEARCH_NORMALIZATION_PATTERNS x = some x := by
  rcases charFold_out _ _ _ h with rfl | ⟨p, hp, hrep⟩
  · exact h
  · rcases searchPattern_rep_cases p hp x hrep with rfl | rfl | rfl | rfl | rfl <;> decide

theorem filterMap_id_of_fixed {f : Char → Option Char} {s : List Char}
    (h : ∀ c ∈ s, f c = some c) : s.filterMap f = s := by
  induction s with
  | nil => rfl
  | cons c t ih =>
    rw [List.filterMap_cons, h c (List.mem_cons_self c t)]
    exact congrArg (c :: ·) (ih fun d hd => h d (List.mem_cons_of_mem _ hd))

theorem mem_collapseWsAux {x : Char} :
    ∀ {b : Bool} {s : List Char}, x ∈ collapseWsAux b s → x = ' ' ∨ x ∈ s := by
  intro b s
  induction s generalizing b with
  | nil => intro h; cases h
  | cons c t ih =>
    intro h
    by_cases hw : isJsWs c
    · rw [collapseWsAux, if_pos hw] at h
      cases b with
      | true =>
        rcases ih h with h1 | h1
        · exact Or.inl h1
        · exact Or.inr (List.mem_cons_of_mem _ h1)
      | false =>
        rcases List.mem_cons.mp h with h1 | h1
        · exact Or.inl h1
        · rcases ih h1 with h2 | h2
          · exact Or.inl h2
          · exact Or.inr (List.mem_cons_of_mem _ h2)
    · rw [collapseWsAux, if_neg hw] at h
      rcases List.mem_cons.mp h with h1 | h1
      · exact Or.inr (h1 ▸ List.mem_cons_self c t)
      · rcases ih h1 with h2 | h2
        · exact Or.inl h2
        · exact Or.inr (List.mem_cons_of_mem _ h2)

theorem mem_trimWs {x : Char} {s : List Char} (h : x ∈ trimWs s) : x ∈ s := by
  unfold trimWs at h
  rw [List.mem_reverse] at h
  have h1 := (List.dropWhile_sublist isJsWs).subset h
  rw [List.mem_reverse] at h1
  exact (List.dropWhile_sublist isJsWs).subset h1

theorem jsToLower_ws (c : Char) : isJsWs (jsToLower c) = isJsWs c := by
  simp only [isJsWs, jsToLower_toNat]
  split_ifs with h
  · apply decide_eq_decide.mpr
    constructor <;> intro hP <;> omega
  · rfl

theorem jsToLower_of_not_upper {c : Char} (h : ¬(65 ≤ c.toNat ∧ c.toNat ≤ 90)) :
    jsToLower c = c := by
  unfold jsToLower
  rw [if_neg h]

theorem jsToLower_idem (c : Char) : jsToLower (jsToLower c) = jsToLower c := by
  by_cases h : 65 ≤ c.toNat ∧ c.toNat ≤ 90
  · have ht := jsToLower_toNat c
    rw [if_pos h] at ht
    exact jsToLower_of_not_upper (by omega)
  · rw [jsToLower_of_not_upper h, jsToLower_of_not_upper h]

theorem searchNorm_fixed_of_low {d : Char} (hd : d.toNat < 0x60C) :
    charFold ARABIC_SEARCH_NORMALIZATION_PATTERNS d = some d := by
  simp only [ARABIC_SEARCH_NORMALIZATION_PATTERNS, charFold, isAlefVariant, isYehVariant,
    isTehMarbutaHeh, isTashkeel, isHamzaCarrier, isTatweel, isArabicPunct,
    decide_eq_true_eq]
  rw [if_neg (by omega), if_neg (by omega), if_neg (by omega), if_neg (by omega),
    if_neg (by omega), if_neg (by omega), if_neg (by omega)]

theorem searchNorm_char_fixed_toLower {x : Char}
    (h : charFold ARABIC_SEARCH_NORMALIZATION_PATTERNS x = some x) :
    charFold ARABIC_SEARCH_NORMALIZATION_PATTERNS (jsToLower x) = some (jsToLower x) := by
  by_cases hu : 65 ≤ x.toNat ∧ x.toNat ≤ 90
  · have ht := jsToLower_toNat x
    rw [if_pos hu] at ht
    exact searchNorm_fixed_of_low (by omega)
  · rw [jsToLower_of_not_upper hu]
    exact h

theorem wsAllSpace_collapseWsAux : ∀ (b : Bool) (s : List Char),
    wsAllSpace (collapseWsAux b s) := by
  intro b s
  induction s generalizing b with
  | nil => intro x hx; cases hx
  | cons c t ih =>
    intro x hx hwx
    by_cases hw : isJsWs c
    · rw [collapseWsAux, if_pos hw] at hx
      cases b with
      | true => exact ih true x hx hwx
      | false =>
        rcases List.mem_cons.mp hx with h1 | h1
        · exact h1
        · exact ih true x h1 hwx
    · rw [collapseWsAux, if_neg hw] at hx
      rcases List.mem_cons.mp hx with h1 | h1
      · exact absurd (h1 ▸ hwx) (by simpa using hw)
      · exact ih false x h1 hwx

theorem noTwoWs_tail {c : Char} {t : List Char} (h : noTwoWs (c :: t) = true) :
    noTwoWs t = true := by
  cases t with
  | nil => rfl
  | cons d t' =>
    rw [noTwoWs] at h
    exact ((Bool.and_eq_true _ _).mp h).2

theorem wsAllSpace_tail {c : Char} {t : List Char} (h : wsAllSpace (c :: t)) :
    wsAllSpace t :=
  fun d hd => h d (List.mem_cons_of_mem _ hd)

theorem collapseWsAux_true_head (s : List Char) :
    collapseWsAux true s = [] ∨
      ∃ c t, collapseWsAux true s = c :: t ∧ isJsWs c = false := by
  induction s with
  | nil => exact Or.inl rfl
  | cons c t ih =>
    by_cases hw : isJsWs c
    · simpa [collapseWsAux, hw] using ih
    · exact Or.inr ⟨c, collapseWsAux false t, by simp [collapseWsAux, hw], by simpa using hw⟩

theorem noTwoWs_collapseWsAux : ∀ (b : Bool) (s : List Char),
    noTwoWs (collapseWsAux b s) = true := by
  intro b s
  induction s generalizing b with
  | nil => cases b <;> rfl
  | cons c t ih =>
    by_cases hw : isJsWs c
    · cases b with
      | true => simpa [collapseWsAux, hw] using ih true
      | false =>
        have hg : collapseWsAux false (c :: t) = ' ' :: collapseWsAux true t := by
          simp [collapseWsAux, hw]
        rw [hg]
        rcases collapseWsAux_true_head t with h0 | ⟨d, t', ht', hd⟩
        · rw [h0]; rfl
        · rw [ht', noTwoWs]
          have hni := ih true
          rw [ht'] at hni
          simp [hd, hni]
    · have hg : collapseWsAux b (c :: t) = c :: collapseWsAux false t := by
        cases b <;> simp [collapseWsAux, hw]
      rw [hg]
      cases h0 : collapseWsAux false t with
      | nil => rfl
      | cons d t' =>
        rw [noTwoWs]
        have hni := ih false
        rw [h0] at hni
        simp [hw, hni]

theorem collapseWsAux_id : ∀ s : List Char, wsAllSpace s → noTwoWs s = true →
    collapseWsAux false s = s ∧
      ((∀ c ∈ s.head?, isJsWs c = false) → collapseWsAux true s = s) := by
  intro s
  induction s with
  | nil => intro _ _; exact ⟨rfl, fun _ => rfl⟩
  | cons c t ih =>
    intro h1 h2
    obtain ⟨ih1, ih2⟩ := ih (wsAllSpace_tail h1) (noTwoWs_tail h2)
    by_cases hw : isJsWs c
    · have hc : c = ' ' := h1 c (List.mem_cons_self c t) hw
      have htHead : ∀ d ∈ t.head?, isJsWs d = false := by
        intro d hd
        cases t with
        | nil => simp at hd
        | cons d' t' =>
          have hdd : d' = d := by simpa using hd
          subst hdd
          rw [noTwoWs] at h2
          have hpair := ((Bool.and_eq_true _ _).mp h2).1
          simp [hw] at hpair
          exact hpair
      refine ⟨?_, fun hh => ?_⟩
      · have : collapseWsAux false (c :: t) = ' ' :: collapseWsAux true t := by
          simp [collapseWsAux, hw]
        rw [this, ih2 htHead, hc]
      · exact absurd (hh c (by simp)) (by simp [hw])
    · refine ⟨?_, fun _ => ?_⟩ <;>
      · have : ∀ b, collapseWsAux b (c :: t) = c :: collapseWsAux false t := by
          intro b; cases b <;> simp [collapseWsAux, hw]
        rw [this, ih1]

theorem dropWhile_head_false {p : Char → Bool} :
    ∀ {s c t}, List.dropWhile p s = c :: t → p c = false := by
  intro s
  induction s with
  | nil => intro c t h; cases h
  | cons a s ih =>
    intro c t h
    rw [List.dropWhile_cons] at h
    by_cases hp : p a
    · rw [if_pos hp] at h
      exact ih h
    · rw [if_neg hp] at h
      cases h
      simpa using hp

theorem dropWhile_eq_self_of_head {p : Char → Bool} {s : List Char}
    (h : ∀ c ∈ s.head?, p c = false) : List.dropWhile p s = s := by
  cases s with
  | nil => rfl
  | cons c t =>
    rw [List.dropWhile_cons, if_neg]
    simp [h c (by simp)]

theorem dropWhile_suffix_ex (p : Char → Bool) :
    ∀ l : List Char, ∃ t, t ++ List.dropWhile p l = l := by
  intro l
  induction l with
  | nil => exact ⟨[], rfl⟩
  | cons a s ih =>
    by_cases hp : p a
    · obtain ⟨t, ht⟩ := ih
      refine ⟨a :: t, ?_⟩
      rw [List.dropWhile_cons, if_pos hp, List.cons_append, ht]
    · refine ⟨[], ?_⟩
      rw [List.dropWhile_cons, if_neg hp, List.nil_append]

theorem trimWs_head_ok (s : List Char) : ∀ c ∈ (trimWs s).head?, isJsWs c = false := by
  intro c hc
  unfold trimWs at hc
  rw [List.head?_reverse] at hc
  cases hvv : List.dropWhile isJsWs (List.dropWhile isJsWs s).reverse with
  | nil => rw [hvv] at hc; simp at hc
  | cons d t =>
    have hvne : List.dropWhile isJsWs (List.dropWhile isJsWs s).reverse ≠ [] := by
      rw [hvv]; simp
    obtain ⟨t0, ht0⟩ := dropWhile_suffix_ex isJsWs (List.dropWhile isJsWs s).reverse
    have hlast : (List.dropWhile isJsWs (List.dropWhile isJsWs s).reverse).getLast? =
        (List.dropWhile isJsWs s).reverse.getLast? := by
      conv_rhs => rw [← ht0]
      exact (List.getLast?_append_of_ne_nil t0 hvne).symm
    rw [hlast, List.getLast?_reverse] at hc
    cases hu : List.dropWhile isJsWs s with
    | nil => rw [hu] at hc; simp at hc
    | cons e r =>
      rw [hu] at hc
      have hce : e = c := by simpa using hc
      subst hce
      exact dropWhile_head_false hu

theorem trimWs_last_ok (s : List Char) :
    ∀ c ∈ (trimWs s).reverse.head?, isJsWs c = false := by
  intro c hc
  unfold trimWs at hc
  rw [List.reverse_reverse] at hc
  cases hv : List.dropWhile isJsWs (List.dropWhile isJsWs s).reverse with
  | nil => rw [hv] at hc; simp at hc
  | cons d t =>
    rw [hv] at hc
    have hcd : d = c := by simpa using hc
    subst hcd
    exact dropWhile_head_false hv

theorem trimWs_idem (s : List Char) : trimWs (trimWs s) = trimWs s := by
  have h1 : List.dropWhile isJsWs (trimWs s) = trimWs s :=
    dropWhile_eq_self_of_head (trimWs_head_ok s)
  have h2 : List.dropWhile isJsWs (trimWs s).reverse = (trimWs s).reverse :=
    dropWhile_eq_self_of_head (trimWs_last_ok s)
  have hdef : trimWs (trimWs s) =
      ((((trimWs s).dropWhile isJsWs).reverse).dropWhile isJsWs).reverse := rfl
  rw [hdef, h1, h2, List.reverse_reverse]

theorem noTwoWs_dropWhile (p : Char → Bool) :
    ∀ {s : List Char}, noTwoWs s = true → noTwoWs (List.dropWhile p s) = true := by
  intro s
  induction s with
  | nil => intro h; exact h
  | cons c t ih =>
    intro h
    rw [List.dropWhile_cons]
    by_cases hp : p c
    · rw [if_pos hp]
      exact ih (noTwoWs_tail h)
    · rw [if_neg hp]
      exact h

theorem noTwoWs_append_one : ∀ (xs : List Char) (a : Char),
    noTwoWs (xs ++ [a]) =
      (noTwoWs xs &&
        (match xs.getLast? with
         | none => true
         | some b => !(isJsWs b && isJsWs a))) := by
  intro xs a
  induction xs with
  | nil => simp [noTwoWs]
  | cons x xs ih =>
    cases xs with
    | nil => simp [noTwoWs]
    | cons y ys =>
      have e1 : (x :: y :: ys) ++ [a] = x :: ((y :: ys) ++ [a]) := rfl
      have e2 : (y :: ys) ++ [a] = y :: (ys ++ [a]) := rfl
      rw [e1, e2, noTwoWs, ← e2, ih, noTwoWs, List.getLast?_cons_cons, Bool.and_assoc]

theorem noTwoWs_reverse : ∀ s : List Char, noTwoWs s.reverse = noTwoWs s := by
  intro s
  induction s with
  | nil => rfl
  | cons c t ih =>
    rw [List.reverse_cons, noTwoWs_append_one, ih, List.getLast?_reverse]
    cases t with
    | nil => simp [noTwoWs]
    | cons d t' =>
      show (noTwoWs (d :: t') && !(isJsWs d && isJsWs c)) = noTwoWs (c :: d :: t')
      rw [noTwoWs, Bool.and_comm, Bool.and_comm (isJsWs d) (isJsWs c)]

theorem noTwoWs_map_jsToLower : ∀ {s : List Char}, noTwoWs s = true →
    noTwoWs (s.map jsToLower) = true := by
  intro s
  induction s with
  | nil => intro h; exact h
  | cons c t ih =>
    intro h
    cases t with
    | nil => rfl
    | cons d t' =>
      rw [List.map_cons, List.map_cons, noTwoWs, jsToLower_ws, jsToLower_ws,
        Bool.and_eq_true]
      rw [noTwoWs, Bool.and_eq_true] at h
      exact ⟨h.1, by rw [← List.map_cons]; exact ih h.2⟩

theorem wsAllSpace_trimWs {s : List Char} (h : wsAllSpace s) : wsAllSpace (trimWs s) :=
  fun c hc hw => h c (mem_trimWs hc) hw

theorem wsAllSpace_map_jsToLower {s : List Char} (h : wsAllSpace s) :
    wsAllSpace (s.map jsToLower) := by
  intro c hc hw
  obtain ⟨y, hy, rfl⟩ := List.mem_map.mp hc
  rw [jsToLower_ws] at hw
  rw [h y hy hw]
  decide

theorem trimWs_map_jsToLower (l : List Char) :
    trimWs (l.map jsToLower) = (trimWs l).map jsToLower := by
  have hpf : (isJsWs ∘ jsToLower) = isJsWs := funext jsToLower_ws
  unfold trimWs
  rw [List.dropWhile_map, hpf, ← List.map_reverse, List.dropWhile_map, hpf,
    ← List.map_reverse]

theorem searchNorm_chars_fixed (s : List Char) :
    ∀ x ∈ normalizeArabicForSearch s,
      charFold ARABIC_SEARCH_NORMALIZATION_PATTERNS x = some x := by
  intro x hx
  unfold normalizeArabicForSearch at hx
  obtain ⟨y, hy, rfl⟩ := List.mem_map.mp hx
  apply searchNorm_char_fixed_toLower
  have hy2 := mem_trimWs hy
  rcases mem_collapseWsAux hy2 with rfl | hy3
  · decide
  · rw [collapseWs] at hy2
    rw [foldl_applyNormPattern_eq_filterMap] at hy3
    obtain ⟨a, _, ha⟩ := List.mem_filterMap.mp hy3
    exact searchNorm_char_fixed ha

theorem wsAllSpace_searchNorm (s : List Char) :
    wsAllSpace (normalizeArabicForSearch s) :=
  wsAllSpace_map_jsToLower (wsAllSpace_trimWs (wsAllSpace_collapseWsAux false _))

theorem noTwoWs_searchNorm (s : List Char) :
    noTwoWs (normalizeArabicForSearch s) = true := by
  unfold normalizeArabicForSearch trimWs
  apply noTwoWs_map_jsToLower
  rw [noTwoWs_reverse]
  apply noTwoWs_dropWhile
  rw [noTwoWs_reverse]
  apply noTwoWs_dropWhile
  exact noTwoWs_collapseWsAux false _

theorem searchNorm_idem (s : List Char) :
    normalizeArabicForSearch (normalizeArabicForSearch s) = normalizeArabicForSearch s := by
  have hP : ARABIC_SEARCH_NORMALIZATION_PATTERNS.foldl applyNormPattern
      (normalizeArabicForSearch s) = normalizeArabicForSearch s := by
    rw [foldl_applyNormPattern_eq_filterMap]
    exact filterMap_id_of_fixed (searchNorm_chars_fixed s)
  have hC : collapseWs (normalizeArabicForSearch s) = normalizeArabicForSearch s :=
    (collapseWsAux_id _ (wsAllSpace_searchNorm s) (noTwoWs_searchNorm s)).1
  have hT : trimWs (normalizeArabicForSearch s) = normalizeArabicForSearch s := by
    conv_lhs => rw [normalizeArabicForSearch]
    rw [trimWs_map_jsToLower, trimWs_idem, ← normalizeArabicForSearch]
  have hM : (normalizeArabicForSearch s).map jsToLower = normalizeArabicForSearch s := by
    conv_lhs => rw [normalizeArabicForSearch]
    rw [List.map_map, show jsToLower ∘ jsToLower = jsToLower from funext jsToLower_idem,
      ← normalizeArabicForSearch]
  conv_lhs => rw [normalizeArabicForSearch]
  rw [hP, hC, hT, hM]

/-! Lemmas about the OCR orchestrators. -/

theorem updateBest_conf_ge_cur (cur : ArabicOCRResult) (d : OCRData) (n : String) :
    cur.confidence ≤ (updateBest cur d n).confidence := by
  unfold updateBest
  by_cases h : d.confidence > cur.confidence
  · rw [if_pos h]
    exact le_of_lt h
  · rw [if_neg h]

theorem updateBest_conf_ge_d (cur : ArabicOCRResult) (d : OCRData) (n : String) :
    d.confidence ≤ (updateBest cur d n).confidence := by
  unfold updateBest
  by_cases h : d.confidence > cur.confidence
  · rw [if_pos h]
  · rw [if_neg h]
    exact le_of_not_lt h

theorem lastD_cons (q x : ℚ) (l : List ℚ) : lastD q (x :: l) = lastD x l := by
  induction l generalizing q x with
  | nil => simp [lastD]
  | cons y t ih =>
    have e1 : lastD q (x :: y :: t) = lastD q (y :: t) := by
      simp [lastD, List.getLast?_cons_cons]
    rw [e1, ih q y, ih x y]

theorem lastD_nil (q : ℚ) : lastD q [] = q := by
  simp [lastD]

theorem lastD_append (q : ℚ) (l1 l2 : List ℚ) :
    lastD q (l1 ++ l2) = lastD (lastD q l1) l2 := by
  induction l1 generalizing q with
  | nil => simp [lastD]
  | cons x t ih => rw [List.cons_append, lastD_cons, lastD_cons, ih]

theorem nondecFrom_append (q : ℚ) (l1 l2 : List ℚ) :
    nondecFrom q (l1 ++ l2) = (nondecFrom q l1 && nondecFrom (lastD q l1) l2) := by
  induction l1 generalizing q with
  | nil => simp [nondecFrom, lastD]
  | cons x t ih => simp [nondecFrom, lastD_cons, ih x, Bool.and_assoc]

theorem nondecFrom_single (q x : ℚ) (h : q ≤ x) : nondecFrom q [x] = true := by
  simp [nondecFrom, h]

theorem lastD_single (q x : ℚ) : lastD q [x] = x := by
  simp [lastD]

theorem chain_append3 (q0 : ℚ) (l1 l2 l3 : List ℚ) (b1 b2 : ℚ)
    (h1 : nondecFrom q0 l1 = true) (e1 : lastD q0 l1 = b1)
    (h2 : nondecFrom b1 l2 = true) (e2 : lastD b1 l2 = b2)
    (h3 : nondecFrom b2 l3 = true) :
    nondecFrom q0 (l1 ++ l2 ++ l3) = true := by
  rw [nondecFrom_append, nondecFrom_append, lastD_append, h1, e1, h2, e2, h3]
  rfl

theorem prepStage_trace_stage1 (ienv : ImgEnv) (env : OCREnv) (buffer : Buffer)
    (langs : List String) (thr : ℚ) :
    ∀ (strats : List (String × PrepStrategyOptions)) (best : ArabicOCRResult) (live : Nat),
      ∀ a ∈ (runAdvancedPrepStage ienv env buffer langs thr strats best live).trace,
        a.stage = 1 := by
  intro strats
  induction strats with
  | nil =>
    intro best live a ha
    simp [runAdvancedPrepStage] at ha
  | cons s rest ih =>
    intro best live a ha
    obtain ⟨name, sopts⟩ := s
    cases h1 : advancedArabicPreprocessingM ienv buffer name with
    | error e =>
      simp only [runAdvancedPrepStage, h1] at ha
      rcases List.mem_cons.mp ha with rfl | ha'
      · rfl
      · exact ih best live a ha'
    | ok pbuf =>
      rcases h2 : performSingleOCRAttemptM env pbuf langs name none (some "LSTM_ONLY") live
        with ⟨res, live2⟩
      cases res with
      | error e =>
        simp only [runAdvancedPrepStage, h1, h2] at ha
        rcases List.mem_cons.mp ha with rfl | ha'
        · rfl
        · exact ih best live2 a ha'
      | ok d =>
        by_cases h3 : d.confidence ≥ thr
        · simp only [runAdvancedPrepStage, h1, h2, if_pos h3] at ha
          rcases List.mem_cons.mp ha with rfl | ha'
          · rfl
          · simp at ha'
        · simp only [runAdvancedPrepStage, h1, h2, if_neg h3] at ha
          rcases List.mem_cons.mp ha with rfl | ha'
          · rfl
          · exact ih _ live2 a ha'

theorem psmStage_trace_stage3 (env : OCREnv) (buffer : Buffer) (langs : List String)
    (thr : ℚ) :
    ∀ (psms : List String) (best : ArabicOCRResult) (live : Nat),
      ∀ a ∈ (runPsmStage env buffer langs thr psms best live).trace, a.stage = 3 := by
  intro psms
  induction psms with
  | nil =>
    intro best live a ha
    simp [runPsmStage] at ha
  | cons psm rest ih =>
    intro best live a ha
    rcases h2 : performSingleOCRAttemptM env buffer langs ("psm_" ++ psm) (some psm)
        (some "LSTM_ONLY") live with ⟨res, live2⟩
    cases res with
    | error e =>
      simp only [runPsmStage, h2] at ha
      rcases List.mem_cons.mp ha with rfl | ha'
      · rfl
      · exact ih best live2 a ha'
    | ok d =>
      by_cases h3 : d.confidence ≥ thr
      · simp only [runPsmStage, h2, if_pos h3] at ha
        rcases List.mem_cons.mp ha with rfl | ha'
        · rfl
        · simp at ha'
      · simp only [runPsmStage, h2, if_neg h3] at ha
        rcases List.mem_cons.mp ha with rfl | ha'
        · rfl
        · exact ih _ live2 a ha'

theorem advStage1_trace_stage1 (ienv : ImgEnv) (env : OCREnv) (b : Buffer)
    (o : ArabicOCROptions) (live : Nat) :
    ∀ a ∈ (advStage1 ienv env b o live).trace, a.stage = 1 := by
  intro a ha
  unfold advStage1 at ha
  split at ha
  · exact prepStage_trace_stage1 ienv env b o.languages o.minConfidenceThreshold _ _ _ a ha
  · simp at ha

theorem advStage2_trace_stage2 (env : OCREnv) (b : Buffer) (langs : List String)
    (thr : ℚ) (r1 : StageOut) :
    ∀ a ∈ (advStage2 env b langs thr r1).trace, a.stage = 2 := by
  intro a ha
  by_cases hc : r1.best.confidence < thr
  · rcases h2 : performSingleOCRAttemptM env b langs "original" none (some "LSTM_ONLY") r1.live
      with ⟨res, live2⟩
    cases res with
    | ok d =>
      simp only [advStage2, if_pos hc, h2] at ha
      rcases List.mem_cons.mp ha with rfl | h0
      · rfl
      · simp at h0
    | error e =>
      simp only [advStage2, if_pos hc, h2] at ha
      rcases List.mem_cons.mp ha with rfl | h0
      · rfl
      · simp at h0
  · simp only [advStage2, if_neg hc] at ha
    simp at ha

theorem advStage3_trace_stage3 (env : OCREnv) (b : Buffer) (langs : List String)
    (thr : ℚ) (isAr : Bool) (r2 : StageOut) :
    ∀ a ∈ (advStage3 env b langs thr isAr r2).trace, a.stage = 3 := by
  intro a ha
  by_cases hc : r2.best.confidence < thr ∧ isAr = true
  · simp only [advStage3, if_pos hc] at ha
    exact psmStage_trace_stage3 env b langs thr PSM_MODES r2.best r2.live a ha
  · simp only [advStage3, if_neg hc] at ha
    simp at ha

theorem prepStage_hit_best (ienv : ImgEnv) (env : OCREnv) (buffer : Buffer)
    (langs : List String) (thr : ℚ) :
    ∀ (strats : List (String × PrepStrategyOptions)) (best : ArabicOCRResult) (live : Nat),
      (∃ a ∈ (runAdvancedPrepStage ienv env buffer langs thr strats best live).trace,
          hitAttempt thr a) →
        thr ≤ (runAdvancedPrepStage ienv env buffer langs thr strats best live).best.confidence := by
  intro strats
  induction strats with
  | nil =>
    intro best live h
    obtain ⟨a, ha, _⟩ := h
    simp [runAdvancedPrepStage] at ha
  | cons s rest ih =>
    intro best live h
    obtain ⟨name, sopts⟩ := s
    obtain ⟨a, ha, hhit⟩ := h
    cases h1 : advancedArabicPreprocessingM ienv buffer name with
    | error e =>
      simp only [runAdvancedPrepStage, h1] at ha ⊢
      rcases List.mem_cons.mp ha with rfl | ha'
      · obtain ⟨d, hd, _⟩ := hhit
        have hd' : (Except.error () : Except Unit OCRData) = Except.ok d := hd
        cases hd'
      · exact ih best live ⟨a, ha', hhit⟩
    | ok pbuf =>
      rcases h2 : performSingleOCRAttemptM env pbuf langs name none (some "LSTM_ONLY") live
        with ⟨res, live2⟩
      cases res with
      | error e =>
        simp only [runAdvancedPrepStage, h1, h2] at ha ⊢
        rcases List.mem_cons.mp ha with rfl | ha'
        · obtain ⟨d, hd, _⟩ := hhit
          have hd' : (Except.error () : Except Unit OCRData) = Except.ok d := hd
          cases hd'
        · exact ih best live2 ⟨a, ha', hhit⟩
      | ok d =>
        by_cases h3 : d.confidence ≥ thr
        · simp only [runAdvancedPrepStage, h1, h2, if_pos h3]
          exact le_trans h3 (updateBest_conf_ge_d best d name)
        · simp only [runAdvancedPrepStage, h1, h2, if_neg h3] at ha ⊢
          rcases List.mem_cons.mp ha with rfl | ha'
          · obtain ⟨d2, hd2, hconf⟩ := hhit
            have hd2' : Except.ok d = Except.ok d2 := hd2
            injection hd2' with hh
            subst hh
            exact absurd hconf h3
          · exact ih _ live2 ⟨a, ha', hhit⟩

theorem advStage1_hit_best (ienv : ImgEnv) (env : OCREnv) (b : Buffer)
    (o : ArabicOCROptions) (live : Nat)
    (h : ∃ a ∈ (advStage1 ienv env b o live).trace, hitAttempt o.minConfidenceThreshold a) :
    o.minConfidenceThreshold ≤ (advStage1 ienv env b o live).best.confidence := by
  obtain ⟨a, ha, hhit⟩ := h
  by_cases hc : o.enableAdvancedPreprocessing = true ∧ o.languages.contains "ara" = true
  · unfold advStage1 at ha ⊢
    rw [if_pos hc] at ha ⊢
    exact prepStage_hit_best ienv env b o.languages o.minConfidenceThreshold _ _ _ ⟨a, ha, hhit⟩
  · unfold advStage1 at ha
    rw [if_neg hc] at ha
    simp at ha

theorem advStage2_hit_best (env : OCREnv) (b : Buffer) (langs : List String)
    (thr : ℚ) (r1 : StageOut)
    (h : ∃ a ∈ (advStage2 env b langs thr r1).trace, hitAttempt thr a) :
    thr ≤ (advStage2 env b langs thr r1).best.confidence := by
  obtain ⟨a, ha, hhit⟩ := h
  by_cases hc : r1.best.confidence < thr
  · rcases h2 : performSingleOCRAttemptM env b langs "original" none (some "LSTM_ONLY") r1.live
      with ⟨res, live2⟩
    cases res with
    | ok d =>
      simp only [advStage2, if_pos hc, h2] at ha ⊢
      rcases List.mem_cons.mp ha with rfl | h0
      · obtain ⟨d2, hd2, hconf⟩ := hhit
        have hd2' : Except.ok d = Except.ok d2 := hd2
        injection hd2' with hh
        subst hh
        exact le_trans hconf (updateBest_conf_ge_d r1.best d "original")
      · simp at h0
    | error e =>
      simp only [advStage2, if_pos hc, h2] at ha
      rcases List.mem_cons.mp ha with rfl | h0
      · obtain ⟨d2, hd2, _⟩ := hhit
        have hd2' : (Except.error () : Except Unit OCRData) = Except.ok d2 := hd2
        cases hd2'
      · simp at h0
  · simp only [advStage2, if_neg hc] at ha
    simp at ha

theorem advStage2_skip (env : OCREnv) (b : Buffer) (langs : List String)
    (thr : ℚ) (r1 : StageOut) (h : ¬ r1.best.confidence < thr) :
    advStage2 env b langs thr r1 = ⟨r1.best, [], r1.live⟩ := by
  unfold advStage2
  rw [if_neg h]

theorem advStage3_skip (env : OCREnv) (b : Buffer) (langs : List String)
    (thr : ℚ) (isAr : Bool) (r2 : StageOut) (h : ¬ r2.best.confidence < thr) :
    advStage3 env b langs thr isAr r2 = ⟨r2.best, [], r2.live⟩ := by
  unfold advStage3
  rw [if_neg (fun hc => h hc.1)]

theorem prepStage_chain (ienv : ImgEnv) (env : OCREnv) (buffer : Buffer)
    (langs : List String) (thr : ℚ) :
    ∀ (strats : List (String × PrepStrategyOptions)) (best : ArabicOCRResult) (live : Nat),
      nondecFrom best.confidence
          ((runAdvancedPrepStage ienv env buffer langs thr strats best live).trace.map
            (fun a => a.bestAfter)) = true ∧
        lastD best.confidence
            ((runAdvancedPrepStage ienv env buffer langs thr strats best live).trace.map
              (fun a => a.bestAfter)) =
          (runAdvancedPrepStage ienv env buffer langs thr strats best live).best.confidence := by
  intro strats
  induction strats with
  | nil =>
    intro best live
    simp [runAdvancedPrepStage, nondecFrom, lastD]
  | cons s rest ih =>
    intro best live
    obtain ⟨name, sopts⟩ := s
    cases h1 : advancedArabicPreprocessingM ienv buffer name with
    | error e =>
      have ihb := ih best live
      simp only [runAdvancedPrepStage, h1, List.map_cons]
      refine ⟨?_, ?_⟩
      · simp only [nondecFrom, Bool.and_eq_true, decide_eq_true_eq]
        exact ⟨le_refl _, ihb.1⟩
      · rw [lastD_cons]
        exact ihb.2
    | ok pbuf =>
      rcases h2 : performSingleOCRAttemptM env pbuf langs name none (some "LSTM_ONLY") live
        with ⟨res, live2⟩
      cases res with
      | error e =>
        have ihb := ih best live2
        simp only [runAdvancedPrepStage, h1, h2, List.map_cons]
        refine ⟨?_, ?_⟩
        · simp only [nondecFrom, Bool.and_eq_true, decide_eq_true_eq]
          exact ⟨le_refl _, ihb.1⟩
        · rw [lastD_cons]
          exact ihb.2
      | ok d =>
        by_cases h3 : d.confidence ≥ thr
        · simp only [runAdvancedPrepStage, h1, h2, if_pos h3, List.map_cons, List.map_nil]
          exact ⟨nondecFrom_single _ _ (updateBest_conf_ge_cur best d name), lastD_single _ _⟩
        · have ihb := ih (updateBest best d name) live2
          simp only [runAdvancedPrepStage, h1, h2, if_neg h3, List.map_cons]
          refine ⟨?_, ?_⟩
          · simp only [nondecFrom, Bool.and_eq_true, decide_eq_true_eq]
            exact ⟨updateBest_conf_ge_cur best d name, ihb.1⟩
          · rw [lastD_cons]
            exact ihb.2

theorem psmStage_chain (env : OCREnv) (buffer : Buffer) (langs : List String) (thr : ℚ) :
    ∀ (psms : List String) (best : ArabicOCRResult) (live : Nat),
      nondecFrom best.confidence
          ((runPsmStage env buffer langs thr psms best live).trace.map
            (fun a => a.bestAfter)) = true ∧
        lastD best.confidence
            ((runPsmStage env buffer langs thr psms best live).trace.map
              (fun a => a.bestAfter)) =
          (runPsmStage env buffer langs thr psms best live).best.confidence := by
  intro psms
  induction psms with
  | nil =>
    intro best live
    simp [runPsmStage, nondecFrom, lastD]
  | cons psm rest ih =>
    intro best live
    rcases h2 : performSingleOCRAttemptM env buffer langs ("psm_" ++ psm) (some psm)
        (some "LSTM_ONLY") live with ⟨res, live2⟩
    cases res with
    | error e =>
      have ihb := ih best live2
      simp only [runPsmStage, h2, List.map_cons]
      refine ⟨?_, ?_⟩
      · simp only [nondecFrom, Bool.and_eq_true, decide_eq_true_eq]
        exact ⟨le_refl _, ihb.1⟩
      · rw [lastD_cons]
        exact ihb.2
    | ok d =>
      by_cases h3 : d.confidence ≥ thr
      · simp only [runPsmStage, h2, if_pos h3, List.map_cons, List.map_nil]
        exact ⟨nondecFrom_single _ _ (updateBest_conf_ge_cur best d _), lastD_single _ _⟩
      · have ihb := ih (updateBest best d ("psm_" ++ psm)) live2
        simp only [runPsmStage, h2, if_neg h3, List.map_cons]
        refine ⟨?_, ?_⟩
        · simp only [nondecFrom, Bool.and_eq_true, decide_eq_true_eq]
          exact ⟨updateBest_conf_ge_cur best d _, ihb.1⟩
        · rw [lastD_cons]
          exact ihb.2

theorem advStage1_chain (ienv : ImgEnv) (env : OCREnv) (b : Buffer)
    (o : ArabicOCROptions) (live : Nat) :
    nondecFrom initialBest.confidence
        ((advStage1 ienv env b o live).trace.map (fun a => a.bestAfter)) = true ∧
      lastD initialBest.confidence
          ((advStage1 ienv env b o live).trace.map (fun a => a.bestAfter)) =
        (advStage1 ienv env b o live).best.confidence := by
  unfold advStage1
  split
  · exact prepStage_chain ienv env b o.languages o.minConfidenceThreshold _ initialBest live
  · exact ⟨rfl, by simp [lastD]⟩

theorem advStage2_chain (env : OCREnv) (b : Buffer) (langs : List String)
    (thr : ℚ) (r1 : StageOut) :
    nondecFrom r1.best.confidence
        ((advStage2 env b langs thr r1).trace.map (fun a => a.bestAfter)) = true ∧
      lastD r1.best.confidence
          ((advStage2 env b langs thr r1).trace.map (fun a => a.bestAfter)) =
        (advStage2 env b langs thr r1).best.confidence := by
  by_cases hc : r1.best.confidence < thr
  · rcases h2 : performSingleOCRAttemptM env b langs "original" none (some "LSTM_ONLY") r1.live
      with ⟨res, live2⟩
    cases res with
    | ok d =>
      simp only [advStage2, if_pos hc, h2, List.map_cons, List.map_nil]
      exact ⟨nondecFrom_single _ _ (updateBest_conf_ge_cur r1.best d "original"),
        lastD_single _ _⟩
    | error e =>
      simp only [advStage2, if_pos hc, h2, List.map_cons, List.map_nil]
      exact ⟨nondecFrom_single _ _ (le_refl _), lastD_single _ _⟩
  · simp only [advStage2, if_neg hc, List.map_nil]
    exact ⟨rfl, by simp [lastD]⟩

theorem advStage3_chain (env : OCREnv) (b : Buffer) (langs : List String)
    (thr : ℚ) (isAr : Bool) (r2 : StageOut) :
    nondecFrom r2.best.confidence
        ((advStage3 env b langs thr isAr r2).trace.map (fun a => a.bestAfter)) = true ∧
      lastD r2.best.confidence
          ((advStage3 env b langs thr isAr r2).trace.map (fun a => a.bestAfter)) =
        (advStage3 env b langs thr isAr r2).best.confidence := by
  by_cases hc : r2.best.confidence < thr ∧ isAr = true
  · simp only [advStage3, if_pos hc]
    exact psmStage_chain env b langs thr PSM_MODES r2.best r2.live
  · simp only [advStage3, if_neg hc, List.map_nil]
    exact ⟨rfl, by simp [lastD]⟩

theorem advOCR_chain (ienv : ImgEnv) (env : OCREnv) (b : Buffer)
    (o : ArabicOCROptions) (live : Nat) :
    nondecFrom initialBest.confidence
      ((performAdvancedArabicOCRM ienv env b o live).trace.map
        (fun a => a.bestAfter)) = true := by
  unfold performAdvancedArabicOCRM
  simp only [List.map_append]
  exact chain_append3 _ _ _ _ _ _
    (advStage1_chain ienv env b o live).1 (advStage1_chain ienv env b o live).2
    (advStage2_chain env b o.languages o.minConfidenceThreshold _).1
    (advStage2_chain env b o.languages o.minConfidenceThreshold _).2
    (advStage3_chain env b o.languages o.minConfidenceThreshold _ _).1

theorem advOCR_stage1_exit (ienv : ImgEnv) (env : OCREnv) (b : Buffer)
    (o : ArabicOCROptions) (live : Nat)
    (h : ∃ a ∈ (performAdvancedArabicOCRM ienv env b o live).trace,
        a.stage = 1 ∧ hitAttempt o.minConfidenceThreshold a) :
    ∀ a ∈ (performAdvancedArabicOCRM ienv env b o live).trace, a.stage = 1 := by
  obtain ⟨a0, ha0, hs0, hhit0⟩ := h
  unfold performAdvancedArabicOCRM at ha0 ⊢
  simp only [List.mem_append] at ha0 ⊢
  have h1t : a0 ∈ (advStage1 ienv env b o live).trace := by
    rcases ha0 with (h1t | h2t) | h3t
    · exact h1t
    · have h2 := advStage2_trace_stage2 env b o.languages o.minConfidenceThreshold _ a0 h2t
      rw [hs0] at h2
      exact absurd h2 (by decide)
    · have h3 := advStage3_trace_stage3 env b o.languages o.minConfidenceThreshold _ _ a0 h3t
      rw [hs0] at h3
      exact absurd h3 (by decide)
  have hb1 : o.minConfidenceThreshold ≤ (advStage1 ienv env b o live).best.confidence :=
    advStage1_hit_best ienv env b o live ⟨a0, h1t, hhit0⟩
  have hr2 : advStage2 env b o.languages o.minConfidenceThreshold (advStage1 ienv env b o live) =
      ⟨(advStage1 ienv env b o live).best, [], (advStage1 ienv env b o live).live⟩ :=
    advStage2_skip _ _ _ _ _ (not_lt.mpr hb1)
  rw [hr2]
  have hr3 : advStage3 env b o.languages o.minConfidenceThreshold (o.languages.contains "ara")
      (⟨(advStage1 ienv env b o live).best, [], (advStage1 ienv env b o live).live⟩ : StageOut) =
      ⟨(advStage1 ienv env b o live).best, [], (advStage1 ienv env b o live).live⟩ :=
    advStage3_skip _ _ _ _ _ _ (not_lt.mpr hb1)
  rw [hr3]
  intro a ha
  rcases ha with (h1t' | h2t') | h3t'
  · exact advStage1_trace_stage1 ienv env b o live a h1t'
  · simp at h2t'
  · simp at h3t'

theorem advOCR_stage2_exit (ienv : ImgEnv) (env : OCREnv) (b : Buffer)
    (o : ArabicOCROptions) (live : Nat)
    (h : ∃ a ∈ (performAdvancedArabicOCRM ienv env b o live).trace,
        a.stage = 2 ∧ hitAttempt o.minConfidenceThreshold a) :
    ∀ a ∈ (performAdvancedArabicOCRM ienv env b o live).trace, a.stage ≠ 3 := by
  obtain ⟨a0, ha0, hs0, hhit0⟩ := h
  unfold performAdvancedArabicOCRM at ha0 ⊢
  simp only [List.mem_append] at ha0 ⊢
  have h2t : a0 ∈ (advStage2 env b o.languages o.minConfidenceThreshold
      (advStage1 ienv env b o live)).trace := by
    rcases ha0 with (h1t | h2t) | h3t
    · have h1 := advStage1_trace_stage1 ienv env b o live a0 h1t
      rw [hs0] at h1
      exact absurd h1 (by decide)
    · exact h2t
    · have h3 := advStage3_trace_stage3 env b o.languages o.minConfidenceThreshold _ _ a0 h3t
      rw [hs0] at h3
      exact absurd h3 (by decide)
  have hb2 : o.minConfidenceThreshold ≤ (advStage2 env b o.languages o.minConfidenceThreshold
      (advStage1 ienv env b o live)).best.confidence :=
    advStage2_hit_best env b o.languages o.minConfidenceThreshold _ ⟨a0, h2t, hhit0⟩
  have hr3 : advStage3 env b o.languages o.minConfidenceThreshold (o.languages.contains "ara")
      (advStage2 env b o.languages o.minConfidenceThreshold (advStage1 ienv env b o live)) =
      ⟨(advStage2 env b o.languages o.minConfidenceThreshold
          (advStage1 ienv env b o live)).best, [],
        (advStage2 env b o.languages o.minConfidenceThreshold
          (advStage1 ienv env b o live)).live⟩ :=
    advStage3_skip _ _ _ _ _ _ (not_lt.mpr hb2)
  rw [hr3]
  intro a ha
  rcases ha with (h1t' | h2t') | h3t'
  · have := advStage1_trace_stage1 ienv env b o live a h1t'
    omega
  · have := advStage2_trace_stage2 env b o.languages o.minConfidenceThreshold _ a h2t'
    omega
  · simp at h3t'

/-! Lemmas about the extractor loops and the fallback sort. -/

theorem v2VariantLoop_kind1 (ienv : ImgEnv) (env : OCREnv) (b : Buffer)
    (langs : List String) (isAr : Bool) :
    ∀ (vs : List String) (best : OCRResultV2),
      ∀ a ∈ (runV2VariantLoop ienv env b langs isAr vs best).2, a.kind = 1 := by
  intro vs
  induction vs with
  | nil =>
    intro best a ha
    simp [runV2VariantLoop] at ha
  | cons v rest ih =>
    intro best a ha
    cases h1 : (createOCRWorkerM env langs).1 with
    | error e =>
      simp only [runV2VariantLoop, h1] at ha
      rcases List.mem_cons.mp ha with rfl | ha'
      · rfl
      · exact ih best a ha'
    | ok w =>
      cases h2 : env.recognize (preprocessImageV2 ienv b v) w none with
      | error e =>
        simp only [runV2VariantLoop, h1, h2] at ha
        rcases List.mem_cons.mp ha with rfl | ha'
        · rfl
        · exact ih best a ha'
      | ok d =>
        by_cases h3 : d.confidence > 85
        · simp only [runV2VariantLoop, h1, h2, if_pos h3] at ha
          rcases List.mem_cons.mp ha with rfl | ha'
          · rfl
          · simp at ha'
        · simp only [runV2VariantLoop, h1, h2, if_neg h3] at ha
          rcases List.mem_cons.mp ha with rfl | ha'
          · rfl
          · exact ih _ a ha'

theorem v2FallbackLoop_kind2 (env : OCREnv) (b : Buffer) (isAr : Bool) :
    ∀ (lss : List (List String)) (best : OCRResultV2),
      ∀ a ∈ (runV2FallbackLoop env b isAr lss best).2, a.kind = 2 := by
  intro lss
  induction lss with
  | nil =>
    intro best a ha
    simp [runV2FallbackLoop] at ha
  | cons ls rest ih =>
    intro best a ha
    cases h1 : (createOCRWorkerM env ls).1 with
    | error e =>
      simp only [runV2FallbackLoop, h1] at ha
      rcases List.mem_cons.mp ha with rfl | ha'
      · rfl
      · exact ih best a ha'
    | ok w =>
      cases h2 : env.recognize b w none with
      | error e =>
        simp only [runV2FallbackLoop, h1, h2] at ha
        rcases List.mem_cons.mp ha with rfl | ha'
        · rfl
        · exact ih best a ha'
      | ok d =>
        by_cases h3 : d.confidence > 60
        · simp only [runV2FallbackLoop, h1, h2, if_pos h3] at ha
          rcases List.mem_cons.mp ha with rfl | ha'
          · rfl
          · simp at ha'
        · simp only [runV2FallbackLoop, h1, h2, if_neg h3] at ha
          rcases List.mem_cons.mp ha with rfl | ha'
          · rfl
          · exact ih _ a ha'

theorem v2VariantLoop_hit (ienv : ImgEnv) (env : OCREnv) (b : Buffer)
    (langs : List String) (isAr : Bool) :
    ∀ (vs : List String) (best : OCRResultV2),
      (∃ a ∈ (runV2VariantLoop ienv env b langs isAr vs best).2,
          ∃ d, a.outcome = Except.ok d ∧ 85 < d.confidence) →
        85 < (runV2VariantLoop ienv env b langs isAr vs best).1.confidence := by
  intro vs
  induction vs with
  | nil =>
    intro best h
    obtain ⟨a, ha, _⟩ := h
    simp [runV2VariantLoop] at ha
  | cons v rest ih =>
    intro best h
    obtain ⟨a, ha, hhit⟩ := h
    cases h1 : (createOCRWorkerM env langs).1 with
    | error e =>
      simp only [runV2VariantLoop, h1] at ha ⊢
      rcases List.mem_cons.mp ha with rfl | ha'
      · obtain ⟨d2, hd2, _⟩ := hhit
        have hd2' : (Except.error () : Except Unit OCRData) = Except.ok d2 := hd2
        cases hd2'
      · exact ih best ⟨a, ha', hhit⟩
    | ok w =>
      cases h2 : env.recognize (preprocessImageV2 ienv b v) w none with
      | error e =>
        simp only [runV2VariantLoop, h1, h2] at ha ⊢
        rcases List.mem_cons.mp ha with rfl | ha'
        · obtain ⟨d2, hd2, _⟩ := hhit
          have hd2' : (Except.error () : Except Unit OCRData) = Except.ok d2 := hd2
          cases hd2'
        · exact ih best ⟨a, ha', hhit⟩
      | ok d =>
        by_cases h3 : d.confidence > 85
        · simp only [runV2VariantLoop, h1, h2, if_pos h3]
          by_cases h4 : d.confidence > best.confidence
          · rw [if_pos h4]
            exact h3
          · rw [if_neg h4]
            exact lt_of_lt_of_le h3 (le_of_not_lt h4)
        · simp only [runV2VariantLoop, h1, h2, if_neg h3] at ha ⊢
          rcases List.mem_cons.mp ha with rfl | ha'
          · obtain ⟨d2, hd2, hconf⟩ := hhit
            have hd2' : Except.ok d = Except.ok d2 := hd2
            injection hd2' with hh
            subst hh
            exact absurd hconf h3
          · exact ih _ ⟨a, ha', hhit⟩

theorem v2Advanced_kind1 (ienv : ImgEnv) (env : OCREnv) (b : Buffer)
    (langs : List String) (isAr : Bool) :
    ∀ a ∈ (performAdvancedOCRV2 ienv env b langs isAr).2, a.kind = 1 := by
  intro a ha
  exact v2VariantLoop_kind1 ienv env b langs isAr _ _ a ha

theorem v2Advanced_hit (ienv : ImgEnv) (env : OCREnv) (b : Buffer)
    (langs : List String) (isAr : Bool)
    (h : ∃ a ∈ (performAdvancedOCRV2 ienv env b langs isAr).2,
        ∃ d, a.outcome = Except.ok d ∧ 85 < d.confidence) :
    85 < (performAdvancedOCRV2 ienv env b langs isAr).1.confidence :=
  v2VariantLoop_hit ienv env b langs isAr _ _ h

theorem v2Fallback_kind2 (env : OCREnv) (b : Buffer) (isAr : Bool) :
    ∀ a ∈ (performFallbackOCRV2 env b isAr).2, a.kind = 2 := by
  intro a ha
  exact v2FallbackLoop_kind2 env b isAr _ _ a ha

theorem extractV2_variant_exit (ienv : ImgEnv) (env : OCREnv) (b : Buffer)
    (langs : List String)
    (h : ∃ a ∈ (extractV2Body ienv env b langs).2,
        a.kind = 1 ∧ ∃ d, a.outcome = Except.ok d ∧ 85 < d.confidence) :
    ∀ a ∈ (extractV2Body ienv env b langs).2, a.kind = 1 := by
  obtain ⟨a0, ha0, hk0, hhit0⟩ := h
  by_cases hAr : langs.any (fun lang => lang = "ara" ∨ lang = "ar") = true
  · unfold extractV2Body at ha0 ⊢
    rw [if_pos hAr] at ha0 ⊢
    by_cases h70 : (performAdvancedOCRV2 ienv env b langs
        (langs.any (fun lang => lang = "ara" ∨ lang = "ar"))).1.confidence ≥ 70
    · rw [if_pos h70] at ha0 ⊢
      intro a ha
      exact v2Advanced_kind1 ienv env b langs _ a ha
    · exfalso
      rw [if_neg h70] at ha0
      have ha0' : a0 ∈ (performAdvancedOCRV2 ienv env b langs
            (langs.any (fun lang => lang = "ara" ∨ lang = "ar"))).2 ++
          (performFallbackOCRV2 env b
            (langs.any (fun lang => lang = "ara" ∨ lang = "ar"))).2 := by
        by_cases hfb : (performFallbackOCRV2 env b
              (langs.any (fun lang => lang = "ara" ∨ lang = "ar"))).1.confidence >
            (performAdvancedOCRV2 ienv env b langs
              (langs.any (fun lang => lang = "ara" ∨ lang = "ar"))).1.confidence
        · rw [if_pos hfb] at ha0
          exact ha0
        · rw [if_neg hfb] at ha0
          exact ha0
      rcases List.mem_append.mp ha0' with hadv | hfbm
      · have h85 := v2Advanced_hit ienv env b langs _ ⟨a0, hadv, hhit0⟩
        exact h70 (le_of_lt (lt_trans (by norm_num) h85))
      · have hk2 := v2Fallback_kind2 env b _ a0 hfbm
        rw [hk0] at hk2
        exact absurd hk2 (by decide)
  · exfalso
    cases h1 : (createOCRWorkerM env langs).1 with
    | error e =>
      simp only [extractV2Body, if_neg hAr, h1] at ha0
      simp at ha0
    | ok w =>
      cases h2 : env.recognize b w none with
      | error e =>
        simp only [extractV2Body, if_neg hAr, h1, h2] at ha0
        simp at ha0
      | ok d =>
        simp only [extractV2Body, if_neg hAr, h1, h2] at ha0
        simp at ha0

theorem insertByConfDesc_head (x : OCRFallbackResult) (l : List OCRFallbackResult) :
    (insertByConfDesc x l).head? =
      some (match l.head? with
        | none => x
        | some y => if x.confidence ≥ y.confidence then x else y) := by
  cases l with
  | nil => rfl
  | cons y ys =>
    unfold insertByConfDesc
    by_cases h : x.confidence ≥ y.confidence
    · rw [if_pos h]
      simp [h]
    · rw [if_neg h]
      simp [h]

theorem sortByConfDesc_head (l : List OCRFallbackResult) :
    (sortByConfDesc l).head? = firstMaxByConf l := by
  induction l with
  | nil => rfl
  | cons x t ih =>
    unfold sortByConfDesc at ih ⊢
    rw [List.foldr_cons, insertByConfDesc_head, ih]
    simp only [firstMaxByConf]
    cases hft : firstMaxByConf t with
    | none => rfl
    | some b =>
      dsimp only
      by_cases h : x.confidence ≥ b.confidence
      · rw [if_pos h, if_neg (not_lt.mpr h)]
      · rw [if_neg h, if_pos (not_le.mp h)]

theorem match_head_getD (o : Option OCRFallbackResult) (z : OCRFallbackResult) (w : Nat) :
    (match o with | none => (z, w) | some b => (b, w)).1 = o.getD z := by
  cases o <;> rfl

theorem v2CeilScale_bound (m d : Nat) (hd : 1 ≤ d) : m ≤ d * v2CeilScale m d := by
  have h1 := Nat.div_add_mod (m + d - 1) d
  have h2 : (m + d - 1) % d < d := Nat.mod_lt _ hd
  unfold v2CeilScale
  rcases le_total 1 ((m + d - 1) / d) with h | h
  · rw [Nat.max_eq_right h]
    generalize hr : (m + d - 1) % d = r at h1 h2
    generalize hA : d * ((m + d - 1) / d) = A at h1 ⊢
    omega
  · rw [Nat.max_eq_left h]
    have h3 : d * ((m + d - 1) / d) ≤ d * 1 := Nat.mul_le_mul (le_refl d) h
    generalize hr : (m + d - 1) % d = r at h1 h2
    generalize hA : d * ((m + d - 1) / d) = A at h1 h3
    omega

/-! Claim theorems. -/

set_option maxRecDepth 40000

/-- Claim C1: the text-enhancement pipeline is claimed idempotent
(`enhanceArabicTextQuality (enhanceArabicTextQuality x) = enhanceArabicTextQuality x`
for every `x`, and likewise for `postprocessArabicOCR`).  The code violates
this: on the input `مكتت ات` one pass rewrites the out-of-dictionary word
`مكتت` to the dictionary word `مكتب` (position similarity 3/4 > 0.7), whose
new trailing `ب` then triggers the broken-preposition join `ب\s*([ا-ي])`
with the following word on the second pass, giving `مكتبات` ≠ `مكتب ات`. -/
theorem c1_enhance_not_idempotent :
    enhanceArabicTextQuality (enhanceArabicTextQuality "مكتت ات".data) ≠
        enhanceArabicTextQuality "مكتت ات".data ∧
      enhanceArabicTextQuality "مكتت ات".data = "مكتب ات".data ∧
      enhanceArabicTextQuality (enhanceArabicTextQuality "مكتت ات".data) = "مكتبات".data := by
  refine ⟨by decide, by decide, by decide⟩

/-- Claim C5: on input with no Arabic-block character, the quality scorer
returns score 0 with exactly the issue `No Arabic text detected` and no
suggestions, regardless of length and of every other penalty rule. -/
theorem c5_score_no_arabic (s : List Char) (h : containsArabic s = false) :
    scoreArabicTextQuality s = ⟨0, ["No Arabic text detected"], []⟩ := by
  unfold scoreArabicTextQuality
  simp [h]

/-- Claim C5 witness: the scorer at a concrete Arabic-free input. -/
theorem c5_score_no_arabic_witness :
    containsArabic "hello world 12345678901234".data = false ∧
      scoreArabicTextQuality "hello world 12345678901234".data =
        ⟨0, ["No Arabic text detected"], []⟩ :=
  ⟨by decide, c5_score_no_arabic "hello world 12345678901234".data (by decide)⟩

/-- Claim C9: the index-time normalizer is idempotent on every input, and it
unifies the hamza-bearing Alef of `أحمد` to the bare Alef. -/
theorem c9_search_normalizer_idempotent :
    (∀ s : List Char,
        normalizeArabicForSearch (normalizeArabicForSearch s) = normalizeArabicForSearch s) ∧
      normalizeArabicForSearch "أحمد".data = "احمد".data :=
  ⟨searchNorm_idem, by decide⟩

/-- Claim C10: both `enhanceArabicTextQuality` and `reconstructArabicText`
return any input with no Arabic-block character completely unchanged. -/
theorem c10_non_arabic_unchanged (s : List Char) (h : containsArabic s = false) :
    enhanceArabicTextQuality s = s ∧ reconstructArabicText s = s := by
  constructor
  · unfold enhanceArabicTextQuality
    simp [h]
  · unfold reconstructArabicText
    simp [h]

/-- Claim C10 witness: the two pipelines at a concrete non-Arabic input with
whitespace, digits and punctuation that the Arabic path would rewrite. -/
theorem c10_non_arabic_unchanged_witness :
    containsArabic "a  b ,7 .x\n\ny".data = false ∧
      enhanceArabicTextQuality "a  b ,7 .x\n\ny".data = "a  b ,7 .x\n\ny".data ∧
      reconstructArabicText "a  b ,7 .x\n\ny".data = "a  b ,7 .x\n\ny".data :=
  ⟨by decide, (c10_non_arabic_unchanged "a  b ,7 .x\n\ny".data (by decide)).1,
    (c10_non_arabic_unchanged "a  b ,7 .x\n\ny".data (by decide)).2⟩

/-- Claim C3: `performSingleOCRAttempt` does release its worker on every exit
path (first conjunct: the live-worker count is preserved for every oracle
behaviour and input), but `tryMultiLanguageOCR` — which the claim also
covers — has no finally block: when recognition throws after worker creation
succeeded, the catch records a failure without terminating the worker.  With
creation succeeding and recognition throwing for each of the three language
combinations, three workers are left live (second conjunct), contradicting
the claimed zero. -/
theorem c3_worker_release_violated :
    (∀ (env : OCREnv) (buffer : Buffer) (languages : List String) (strategyName : String)
        (psm oem : Option String) (live : Nat),
        (performSingleOCRAttemptM env buffer languages strategyName psm oem live).2 = live) ∧
      (tryMultiLanguageOCRM recognizeThrowsOCREnv 0 ["ara"] 0).2 = 3 := by
  constructor
  · intro env buffer languages strategyName psm oem live
    unfold performSingleOCRAttemptM
    cases env.createW languages oem with
    | error e => rfl
    | ok u =>
      cases env.setParams languages psm with
      | error e => simp
      | ok u2 =>
        cases env.recognize buffer languages psm with
        | error e => simp
        | ok d => simp
  · decide

/-- Claim C6: worker creation with the requested language set retries
exactly once with English before surfacing failure (first conjunct: the
trace of `createWorker` calls is the filtered set alone on success, and the
filtered set followed by `["eng"]` otherwise, with the call failing only
when both creations fail); the extraction call never ends in an unhandled
error for any oracle behaviour and language set (second conjunct); and a
language set containing only an unsupported code, with every engine call
failing, still returns the empty string rather than crashing (third
conjunct). -/
theorem c6_language_fallback :
    (∀ (env : OCREnv) (languages : List String),
        (createOCRWorkerM env languages).2 =
          (match env.createW (availLangsOf languages) (some "LSTM_ONLY") with
           | .ok _ => [availLangsOf languages]
           | .error _ => [availLangsOf languages, ["eng"]]) ∧
        ((createOCRWorkerM env languages).1 = .error () ↔
          env.createW (availLangsOf languages) (some "LSTM_ONLY") = .error () ∧
            env.createW ["eng"] (some "LSTM_ONLY") = .error ())) ∧
      (∀ (ienv : ImgEnv) (env : OCREnv) (buffer : Buffer) (languages : List String),
          (extractTextFromImageV2 ienv env buffer languages).1.isOk = true) ∧
      (extractTextFromImageV2 allFailImgEnv allFailOCREnv 0 ["fra"]).1 = .ok [] := by
  refine ⟨?_, ?_, by decide⟩
  · intro env languages
    cases h1 : env.createW (availLangsOf languages) (some "LSTM_ONLY") with
    | ok u =>
      simp [createOCRWorkerM, h1]
    | error e =>
      cases h2 : env.createW ["eng"] (some "LSTM_ONLY") with
      | ok u => simp [createOCRWorkerM, h1, h2]
      | error e2 => simp [createOCRWorkerM, h1, h2]
  · intro ienv env buffer languages
    unfold extractTextFromImageV2
    cases hb : extractV2Body ienv env buffer languages with
    | mk res tr =>
      cases res with
      | ok t => rfl
      | error e =>
        cases hf : extractV2FinalFallback env buffer with
        | ok t => rfl
        | error e2 => rfl

/-- Claim C7: neither preprocessing entry point propagates a hard failure —
whenever the try-block of the extractor `preprocessImage` or of
`preprocessArabicDocument` fails, the function returns the original
unmodified buffer instead. -/
theorem c7_preprocessing_graceful :
    (∀ (ienv : ImgEnv) (buffer : Buffer) (variant : String),
        preprocessImageV2Inner ienv buffer variant = .error () →
          preprocessImageV2 ienv buffer variant = buffer) ∧
      (∀ (ienv : ImgEnv) (buffer : Buffer) (o : ImagePreprocessingOptions),
          preprocessArabicDocumentInner ienv buffer o = .error () →
            preprocessArabicDocument ienv buffer o = buffer) := by
  constructor
  · intro ienv buffer variant h
    unfold preprocessImageV2
    rw [h]
  · intro ienv buffer o h
    unfold preprocessArabicDocument
    rw [h]

/-- Claim C7 witness: with every raster call failing, both inner pipelines
fail and both entry points return the original buffer. -/
theorem c7_preprocessing_graceful_witness :
    preprocessImageV2Inner allFailImgEnv 0 "original" = .error () ∧
      preprocessImageV2 allFailImgEnv 0 "original" = 0 ∧
      preprocessArabicDocumentInner allFailImgEnv 0 conservativeOpts = .error () ∧
      preprocessArabicDocument allFailImgEnv 0 conservativeOpts = 0 :=
  ⟨by decide, c7_preprocessing_graceful.1 allFailImgEnv 0 "original" (by decide),
    by decide, c7_preprocessing_graceful.2 allFailImgEnv 0 conservativeOpts (by decide)⟩

/-- Claim C2: the orchestrators stop the moment an attempt's confidence
meets the stage threshold.  First conjunct: if any stage-1
(preprocessed-variant) attempt of `performAdvancedArabicOCR` reaches the
threshold, every executed attempt of the whole run is a stage-1 attempt (no
original-image fallback, no segmentation mode runs).  Second conjunct: if
the stage-2 (original image) attempt reaches the threshold, no
segmentation-mode attempt runs.  Third conjunct: in the extractor, if a
preprocessed-variant attempt exceeds the break confidence 85, every executed
attempt is a variant attempt (no language-combination fallback runs).
Fourth conjunct: the claim's concrete instance — a variant yielding
confidence 90 against threshold 85 makes the run consist of exactly that one
attempt. -/
theorem c2_threshold_short_circuit :
    (∀ (ienv : ImgEnv) (env : OCREnv) (b : Buffer) (o : ArabicOCROptions) (live : Nat),
        (∃ a ∈ (performAdvancedArabicOCRM ienv env b o live).trace,
            a.stage = 1 ∧ hitAttempt o.minConfidenceThreshold a) →
          (performAdvancedArabicOCRM ienv env b o live).trace.all
            (fun a => a.stage == 1) = true) ∧
      (∀ (ienv : ImgEnv) (env : OCREnv) (b : Buffer) (o : ArabicOCROptions) (live : Nat),
          (∃ a ∈ (performAdvancedArabicOCRM ienv env b o live).trace,
              a.stage = 2 ∧ hitAttempt o.minConfidenceThreshold a) →
            (performAdvancedArabicOCRM ienv env b o live).trace.all
              (fun a => a.stage != 3) = true) ∧
      (∀ (ienv : ImgEnv) (env : OCREnv) (b : Buffer) (langs : List String),
          (∃ a ∈ (extractV2Body ienv env b langs).2,
              a.kind = 1 ∧ ∃ d, a.outcome = Except.ok d ∧ 85 < d.confidence) →
            (extractV2Body ienv env b langs).2.all (fun a => a.kind == 1) = true) ∧
      (performAdvancedArabicOCRM smallMetaImgEnv const90OCREnv 0 opts85 0).trace =
        [⟨1, "high_contrast_binarized", Except.ok ⟨[], 90⟩, 90⟩] := by
  refine ⟨?_, ?_, ?_, by decide⟩
  · intro ienv env b o live h
    rw [List.all_eq_true]
    intro a ha
    rw [advOCR_stage1_exit ienv env b o live h a ha]
    rfl
  · intro ienv env b o live h
    rw [List.all_eq_true]
    intro a ha
    rw [bne_iff_ne]
    exact advOCR_stage2_exit ienv env b o live h a ha
  · intro ienv env b langs h
    rw [List.all_eq_true]
    intro a ha
    rw [extractV2_variant_exit ienv env b langs h a ha]
    rfl

/-- Claim C2 witness: with a 10×10 image and an engine always answering
confidence 90 against threshold 85, every executed attempt of the run is a
stage-1 attempt. -/
theorem c2_threshold_short_circuit_witness :
    (performAdvancedArabicOCRM smallMetaImgEnv const90OCREnv 0 opts85 0).trace.all
      (fun a => a.stage == 1) = true :=
  c2_threshold_short_circuit.1 smallMetaImgEnv const90OCREnv 0 opts85 0
    ⟨⟨1, "high_contrast_binarized", Except.ok ⟨[], 90⟩, 90⟩, by decide, rfl,
      ⟨⟨[], 90⟩, rfl, by decide⟩⟩

/-- Claim C4: the best result is replaced only on strictly greater
confidence (first two conjuncts: equal or lower confidence keeps the earlier
attempt, strictly greater replaces), its confidence is non-decreasing across
the attempt sequence of any `performAdvancedArabicOCR` run (third conjunct:
the logged best-confidence sequence is a chain from the initial 0), and the
comprehensive fallback selects the earliest result of maximal confidence
(fourth conjunct: the stable sort's head is the first maximum, so equal
confidence keeps the higher-priority attempt). -/
theorem c4_best_replacement_policy :
    (∀ (cur : ArabicOCRResult) (d : OCRData) (n : String),
        d.confidence ≤ cur.confidence → updateBest cur d n = cur) ∧
      (∀ (cur : ArabicOCRResult) (d : OCRData) (n : String),
          cur.confidence < d.confidence →
            updateBest cur d n = ⟨d.text, d.confidence, n⟩) ∧
      (∀ (ienv : ImgEnv) (env : OCREnv) (b : Buffer) (o : ArabicOCROptions) (live : Nat),
          nondecFrom initialBest.confidence
            ((performAdvancedArabicOCRM ienv env b o live).trace.map
              (fun a => a.bestAfter)) = true) ∧
      (∀ (env : OCREnv) (b : Buffer) (langs : List String) (live : Nat),
          (performComprehensiveArabicOCRM env b langs live).1 =
            (firstMaxByConf
                (((tryMultiLanguageOCRM env b langs live).1 ++
                    (tryDifferentOEModesM env b langs
                      (tryMultiLanguageOCRM env b langs live).2).1).filter
                  (fun r => r.success ∧ r.confidence > 0))).getD
              ⟨[], 0, "all_failed", false⟩) := by
  refine ⟨?_, ?_, ?_, ?_⟩
  · intro cur d n h
    unfold updateBest
    rw [if_neg (not_lt.mpr h)]
  · intro cur d n h
    unfold updateBest
    rw [if_pos h]
  · intro ienv env b o live
    exact advOCR_chain ienv env b o live
  · intro env b langs live
    simp only [performComprehensiveArabicOCRM]
    rw [sortByConfDesc_head]
    exact match_head_getD _ _ _

/-- Claim C4 witness: an attempt of equal confidence keeps the earlier best;
a strictly better attempt replaces it. -/
theorem c4_best_replacement_policy_witness :
    updateBest ⟨"ab".data, 50, "x"⟩ ⟨"cd".data, 50⟩ "y" = ⟨"ab".data, 50, "x"⟩ ∧
      updateBest ⟨"ab".data, 50, "x"⟩ ⟨"cd".data, 60⟩ "y" = ⟨"cd".data, 60, "y"⟩ :=
  ⟨c4_best_replacement_policy.1 ⟨"ab".data, 50, "x"⟩ ⟨"cd".data, 50⟩ "y" (by norm_num),
    c4_best_replacement_policy.2.1 ⟨"ab".data, 50, "x"⟩ ⟨"cd".data, 60⟩ "y" (by norm_num)⟩

/-- Claim C8, amended.  The extractor `preprocessImage` does upscale every
undersized image before any further transform: for positive dimensions below
its minimums (100×50), the composed pipeline starts with a resize whose
target meets both minimums, ahead of all variant transforms.  The claim
holds for this entry point only — see the counterexample theorem for
`preprocessImageForOCR`. -/
theorem c8_minimum_upscale :
    ∀ (variant : String) (w h : Nat), 1 ≤ w → 1 ≤ h → w < 100 ∨ h < 50 →
      preprocessImageV2Ops variant w h =
          ImgOp.resize (w * max (v2CeilScale 100 w) (v2CeilScale 50 h))
              (h * max (v2CeilScale 100 w) (v2CeilScale 50 h)) ::
            (preprocessImageV2VariantOps variant w h ++ [ImgOp.grayscale, ImgOp.png]) ∧
        100 ≤ w * max (v2CeilScale 100 w) (v2CeilScale 50 h) ∧
        50 ≤ h * max (v2CeilScale 100 w) (v2CeilScale 50 h) := by
  intro variant w h hw hh hsmall
  refine ⟨?_, ?_, ?_⟩
  · unfold preprocessImageV2Ops
    rw [if_pos hsmall]
    rfl
  · calc (100 : Nat) ≤ w * v2CeilScale 100 w := v2CeilScale_bound 100 w hw
      _ ≤ w * max (v2CeilScale 100 w) (v2CeilScale 50 h) :=
        Nat.mul_le_mul (le_refl w) (le_max_left _ _)
  · calc (50 : Nat) ≤ h * v2CeilScale 50 h := v2CeilScale_bound 50 h hh
      _ ≤ h * max (v2CeilScale 100 w) (v2CeilScale 50 h) :=
        Nat.mul_le_mul (le_refl h) (le_max_right _ _)

/-- Claim C8 counterexample: `preprocessImageForOCR` (image-preprocessor
version) raises the scale factor only by the SMALLER of the two
minimum-dimension ratios and then drops the resize inside its 0.9–1.1 dead
zone.  A 390×195 image at density 200 and target DPI 200 is below both of
its minimums (400×200) yet gets scale factor 40/39, inside the dead zone, so
the composed pipeline holds no resize at all and the grayscale, contrast,
noise, sharpen and convolution transforms run on the undersized image. -/
theorem c8_minimum_upscale_cex :
    (390 : Nat) < 400 ∧ (195 : Nat) < 200 ∧
      preprocessImageForOCRScale 390 195 (some 200) 200 = 40 / 39 ∧
      preprocessResizeOps 390 195 (40 / 39) = [] ∧
      preprocessResizeOps 390 195 (preprocessImageForOCRScale 390 195 (some 200) 200) ++
          preprocessImageForOCRMainOps ⟨true, true, 200, true, true, some 128⟩ =
        preprocessImageForOCRMainOps ⟨true, true, 200, true, true, some 128⟩ ∧
      (preprocessImageForOCRMainOps ⟨true, true, 200, true, true, some 128⟩).all
        (fun op => !(isResizeOp op)) = true := by
  have hscale : preprocessImageForOCRScale 390 195 (some 200) 200 = 40 / 39 := by
    unfold preprocessImageForOCRScale
    rw [if_pos (by norm_num : (390 : Nat) < 400 ∨ (195 : Nat) < 200)]
    norm_num [Option.getD, min_def, max_def]
  have hops : preprocessResizeOps 390 195 (40 / 39) = [] := by
    unfold preprocessResizeOps
    rw [if_neg]
    norm_num
  refine ⟨by decide, by decide, hscale, hops, ?_, by decide⟩
  rw [hscale, hops, List.nil_append]

/-- Claim C8 witness: a 40×30 image is below the extractor minimums, and the
composed pipeline starts with a resize to 120×90 — both above the
minimums — before any other transform. -/
theorem c8_minimum_upscale_witness :
    preprocessImageV2Ops "original" 40 30 =
        ImgOp.resize (40 * max (v2CeilScale 100 40) (v2CeilScale 50 30))
            (30 * max (v2CeilScale 100 40) (v2CeilScale 50 30)) ::
          (preprocessImageV2VariantOps "original" 40 30 ++ [ImgOp.grayscale, ImgOp.png]) ∧
      100 ≤ 40 * max (v2CeilScale 100 40) (v2CeilScale 50 30) ∧
      50 ≤ 30 * max (v2CeilScale 100 40) (v2CeilScale 50 30) :=
  c8_minimum_upscale "original" 40 30 (by decide) (by decide) (Or.inl (by decide))

end Waraq
